import Mathlib

/-!
# Verification of the cray-product-catalog update/partition/migration protocol

Shallow embedding of the client logic in `cray_product_catalog`
(`catalog_update.py`, `catalog_delete.py`, `util/catalog_data_helper.py`,
`migration/main.py`, `migration/exit_handler.py`,
`migration/config_map_data_handler.py`, `migration/kube_apis.py`), together
with theorems about its documented properties.

Modelling conventions:
* Python dictionaries are association lists `List (String × α)`; the catalog
  code only ever builds dictionaries with unique keys, so `lookupKV` (first
  match), `insertKV` (in-place update or append, preserving insertion order,
  like CPython dicts) and `eraseKV` (filter) mirror `d[k]`, `d[k] = v` and
  `d.pop(k)`.
* YAML serialization is a boundary encoding (`yaml.safe_load` /
  `yaml.safe_dump` round-trip); serialized values are represented already
  parsed, with the one exception of the migration code, which also stores the
  literal empty string `''` (represented by `SVal.emptyStr`, whose
  `safe_load` is Python `None`).
* The Kubernetes API server is external to the repository; it is modelled as
  the environment: either as per-attempt response schedules (update/delete
  retry loops) or as an explicit store plus a fault schedule (migration).
-/

namespace CrayProductCatalog

/-- A parsed YAML value: scalars, sequences and nested mappings.  Mirrors the
objects `yaml.safe_load` hands to the catalog code.  Sequences and mappings
are encoded as cons chains (`vnil`/`vcons`, `mnil`/`mcons`) so that equality
is derivable and every function on values reduces definitionally. -/
inductive Val where
  | vbool (b : Bool)
  | vstr (s : String)
  | vnil
  | vcons (hd tl : Val)
  | mnil
  | mcons (k : String) (v rest : Val)
deriving DecidableEq, Repr

/-- `isinstance(v, dict)`. -/
def Val.isMap : Val → Bool
  | .mnil => true
  | .mcons _ _ _ => true
  | _ => false

/-- Python truthiness of a YAML value (`bool(v)`), used by
`current_version_is_active`'s `.get('active')` test. -/
def Val.truthy : Val → Bool
  | .vbool b => b
  | .vstr s => s ≠ ""
  | .vnil => false
  | .vcons _ _ => true
  | .mnil => false
  | .mcons _ _ _ => true

/-- `v[k]` on a mapping value. -/
def Val.mlookup (k : String) : Val → Option Val
  | .mcons k' v rest => if k' = k then some v else rest.mlookup k
  | _ => none

/-- `v[k] = x` on a mapping value (update in place or append, CPython dict
order). -/
def Val.minsert (k : String) (x : Val) : Val → Val
  | .mnil => .mcons k x .mnil
  | .mcons k' v rest =>
      if k' = k then .mcons k x rest else .mcons k' v (Val.minsert k x rest)
  | other => other

/-- One version's document: the top-level fields of a ProductVersionDocument. -/
abbrev Doc := List (String × Val)

/-- One product's data: versions mapping to their documents. -/
abbrev PData := List (String × Doc)

instance : DecidableEq Doc := inferInstance

instance : DecidableEq PData := inferInstance

instance : DecidableEq (List (String × PData)) := inferInstance

/-- `d[k]` — the first binding for `k`. -/
def lookupKV {α : Type} (k : String) : List (String × α) → Option α
  | [] => none
  | (k', v) :: rest => if k' = k then some v else lookupKV k rest

/-- `k in d`. -/
def containsKV {α : Type} (k : String) (l : List (String × α)) : Bool :=
  (lookupKV k l).isSome

/-- `d[k] = v` with CPython dict semantics: an existing key keeps its
position; a new key is appended. -/
def insertKV {α : Type} (k : String) (v : α) (l : List (String × α)) :
    List (String × α) :=
  if containsKV k l then
    l.map (fun kv => if kv.1 = k then (k, v) else kv)
  else
    l ++ [(k, v)]

/-- `d.pop(k)`; on the duplicate-free lists the code builds this removes the
single binding for `k`. -/
def eraseKV {α : Type} (k : String) (l : List (String × α)) :
    List (String × α) :=
  l.filter (fun kv => kv.1 ≠ k)

/-! ## Constants (`cray_product_catalog/constants.py`) -/

/-- Modelled from the spec: `constants.py` is not among the provided sources;
the spec fixes the SharedFieldSet as "conceptually `{component_versions}`",
the fields routed to the product-specific object. -/
def PRODUCT_CM_FIELDS : List String := ["component_versions"]

/-- Modelled from the spec: the key of the cataloging/partitioned-layout
marker label carried by every object the catalog owns (`constants.py` is not
among the provided sources). -/
def PRODUCT_CATALOG_CONFIG_MAP_LABEL_KEY : String := "type"

/-- Name of the main (shared) ConfigMap, default of the `CONFIG_MAP_NAME`
environment variable (`migration/__init__.py`). -/
def PRODUCT_CATALOG_CONFIG_MAP_NAME : List Char :=
  "cray-product-catalog".toList

/-- Modelled from the spec: the marker label as a dict; `migration/main.py`
checks `labels.get(KEY) == PRODUCT_CATALOG_CONFIG_MAP_NAME`, so the value is
the main ConfigMap's name. -/
def PRODUCT_CATALOG_CONFIG_MAP_LABEL : List (String × String) :=
  [(PRODUCT_CATALOG_CONFIG_MAP_LABEL_KEY, "cray-product-catalog")]

/-- The label selector `CRAY_DATA_CATALOG_LABEL` used by the rollback
handler's list operation, as a key/value pair. -/
def CRAY_DATA_CATALOG_LABEL : String × String :=
  (PRODUCT_CATALOG_CONFIG_MAP_LABEL_KEY, "cray-product-catalog")

/-! ## DeepMerge (`cray_product_catalog/util/merge_dict.py`) -/

/-- Modelled from the spec: `merge_dict.py` is not among the provided
sources.  Spec §4.1: for each key in `source`, if the key exists in
`destination` and both values are mappings, recurse; otherwise the value from
`source` replaces (or inserts into) `destination`; keys present only in
`destination` are preserved.  This is the recursion on nested mapping
values. -/
def Val.merge : Val → Val → Val
  | .mcons k v rest, dest =>
      let dest' :=
        match dest.mlookup k with
        | some dv =>
            if v.isMap && dv.isMap then dest.minsert k (Val.merge v dv)
            else dest.minsert k v
        | none => dest.minsert k v
      Val.merge rest dest'
  | _, dest => dest

/-- Modelled from the spec: `merge_dict(source, destination)` at the
top level of a version document (see `Val.merge` for nested mappings). -/
def merge_dict (source destination : Doc) : Doc :=
  match source with
  | [] => destination
  | (k, v) :: rest =>
      let dest' :=
        match lookupKV k destination with
        | some dv =>
            if v.isMap && dv.isMap then insertKV k (Val.merge v dv) destination
            else insertKV k v destination
        | none => insertKV k v destination
      merge_dict rest dest'

/-! ## Partitioner (`cray_product_catalog/util/catalog_data_helper.py`) -/

/-- `split_catalog_data(data)`: the dict comprehensions over
`all_unique_keys − PRODUCT_CM_FIELDS` and
`all_unique_keys ∩ PRODUCT_CM_FIELDS` are rendered as filters of the
association list; when the intersection is empty the second component is the
literal empty dict. -/
def split_catalog_data (data : Doc) : Doc × Doc :=
  let main := data.filter (fun kv => !(PRODUCT_CM_FIELDS.contains kv.1))
  let prod := data.filter (fun kv => PRODUCT_CM_FIELDS.contains kv.1)
  if prod.isEmpty then (main, []) else (main, prod)

/-- `[a-z0-9]`. -/
def isLowerAlnum (c : Char) : Bool :=
  (('a' ≤ c) && (c ≤ 'z')) || (('0' ≤ c) && (c ≤ '9'))

/-- `[a-z0-9.-]`. -/
def isNameChar (c : Char) : Bool :=
  isLowerAlnum c || c = '-' || c = '.'

/-- `re.fullmatch('^([a-z0-9])*[a-z0-9.-]*([a-z0-9])$', s)`: since
`[a-z0-9] ⊆ [a-z0-9.-]`, this regex's language is exactly the non-empty
strings over `[a-z0-9.-]` whose last character is in `[a-z0-9]`; the
recursion checks precisely that. -/
def matchesCmPattern : List Char → Bool
  | [] => false
  | [c] => isLowerAlnum c
  | c :: rest => isNameChar c && matchesCmPattern rest

/-- The two rejection checks at the end of `format_product_cm_name`: the
empty sentinel when the candidate name is longer than 253 characters or
fails the naming regex, the candidate itself otherwise. -/
def formatCheck (name : List Char) : List Char :=
  if name.length > 253 then []
  else if ¬ matchesCmPattern name then []
  else name

/-- `format_product_cm_name(config_map, product)` on strings as character
lists: `product.replace('_', '-').lower()` appended to `config_map + '-'`,
then the length/pattern checks. -/
def format_product_cm_name (config_map product : List Char) : List Char :=
  formatCheck (config_map ++ ['-'] ++
    (product.map (fun c => if c = '_' then '-' else c)).map Char.toLower)

/-- The language of the spec's claimed pattern
`^[a-z0-9]([a-z0-9.-]*[a-z0-9])?$` (a valid DNS-subdomain-like name): it
additionally requires the first character to be alphanumeric.  Stated from
the spec's words, to be compared with what `format_product_cm_name`
actually returns. -/
def matchesDnsPattern : List Char → Bool
  | [] => false
  | [c] => isLowerAlnum c
  | c :: rest => isLowerAlnum c && matchesCmPattern rest

/-! ## OptimisticUpdateProtocol, update path (`catalog_update.py`) -/

/-- `product_data[version].get('active')` truthiness. -/
def getActive (d : Doc) : Bool :=
  match lookupKV "active" d with
  | some v => v.truthy
  | none => false

/-- `set_active_version(product_data)`: sets `active` to
`version == PRODUCT_VERSION` on every version. -/
def set_active_version (target : String) (pd : PData) : PData :=
  pd.map (fun vd => (vd.1, insertKV "active" (.vbool (vd.1 = target)) vd.2))

/-- `current_version_is_active(product_data)`. -/
def current_version_is_active (target : String) (pd : PData) : Bool :=
  getActive ((lookupKV target pd).getD []) &&
    ¬ pd.any (fun vd => vd.1 ≠ target && getActive vd.2)

/-- `remove_active_field(product_data)`. -/
def remove_active_field (pd : PData) : PData :=
  pd.map (fun vd => (vd.1, eraseKV "active" vd.2))

/-- `active_field_exists(product_data)`. -/
def active_field_exists (pd : PData) : Bool :=
  pd.any (fun vd => containsKV "active" vd.2)

/-- The environment-derived parameters of one `update_config_map` call
(`PRODUCT`, `PRODUCT_VERSION`, the YAML payload, the mode flags, and whether
`name == MAIN_CONFIG_MAP`). -/
structure UpdParams where
  product : String
  version : String
  data : Doc
  isMainCM : Bool
  setActiveVersion : Bool
  removeActiveField : Bool
  updateOverwrite : Bool

/-- A successful `read_namespaced_config_map` response: the parsed data
(`response.data or {}` is `[]` here) and the `resourceVersion` token. -/
structure CMRead where
  data : List (String × PData)
  resourceVersion : String
deriving DecidableEq, Repr

/-- Outcome of one `read_namespaced_config_map` call: success, a 404
`ApiException`, or any other `ApiException`. -/
inductive ReadRes where
  | ok (r : CMRead)
  | notFound
  | apiErr
deriving DecidableEq, Repr

/-- Outcome of one `patch_namespaced_config_map` call: success, a 409
conflict, or any other `ApiException`. -/
inductive PatchRes where
  | ok
  | conflict
  | apiErr
deriving DecidableEq, Repr

/-- The backend's behaviour, indexed by the value of `attempt` at which the
call is issued.  The Kubernetes API server is external to this repository;
concurrent writers are folded into the responses it returns. -/
structure UpdEnv where
  read : Nat → ReadRes
  createOk : Nat → Bool
  patch : Nat → PatchRes

/-- How one `update_config_map` call ends: normal return, `SystemExit`, or an
`ApiException` re-raised out of the loop. -/
inductive UpdOutcome where
  | completed
  | sysExit
  | apiRaise
deriving DecidableEq, Repr

/-- One `patch_namespaced_config_map` call issued by `update_config_map`:
the attempt it happened on, the `resourceVersion` token presented in the
`V1ObjectMeta`, and the `V1ConfigMap` data sent. -/
structure PatchCall where
  attempt : Nat
  token : String
  body : List (String × PData)
deriving DecidableEq, Repr

/-- Observable result of an `update_config_map` run: the outcome, the final
value of `attempt`, the attempts whose patch was committed by the backend,
and every patch call issued (most recent first). -/
structure UpdRun where
  outcome : UpdOutcome
  attempt : Nat
  committed : List Nat
  patches : List PatchCall
deriving DecidableEq, Repr

/-- `retries = 100` in `update_config_map`. -/
def UPDATE_RETRIES : Nat := 100

/-- The code after the `while` loop: `if attempt == retries: raise
SystemExit(1)`. -/
def updatePost (attempt : Nat) (committed : List Nat)
    (calls : List PatchCall) : UpdRun :=
  ⟨if attempt = UPDATE_RETRIES then .sysExit else .completed,
   attempt, committed, calls⟩

/-- The patch section of the loop body (`catalog_update.py` lines 250-269):
dump the mutated `product_data` over the product's entry and patch,
presenting the `resourceVersion` obtained by this iteration's read.  Returns
the committed/call accumulators for the next iteration (every patch outcome
falls through to the next iteration; there is no `break` after a successful
patch). -/
def updatePatch (P : UpdParams) (env : UpdEnv) (a : Nat) (r : CMRead)
    (pd : PData) (committed : List Nat) (calls : List PatchCall) :
    List Nat × List PatchCall :=
  let body := insertKV P.product pd r.data
  let calls' := ⟨a, r.resourceVersion, body⟩ :: calls
  match env.patch a with
  | .ok => (a :: committed, calls')
  | .conflict => (committed, calls')
  | .apiErr => (committed, calls')

/-- One pass of the `Decide` logic (`catalog_update.py` lines 205-252):
given this iteration's read, either `break` (`none`), raise `SystemExit`, or
produce the `product_data` dict the patch section will re-serialize. -/
inductive UpdDecide where
  | brk
  | exit
  | patch (pd : PData)

/-- `Decide`: lines 205-242 of `catalog_update.py`. -/
def updateDecide (P : UpdParams) (cmData : List (String × PData)) :
    UpdDecide :=
  match lookupKV P.product cmData with
  | none => .patch [(P.version, [])]
  | some pd0 =>
      match lookupKV P.version pd0 with
      | none => .patch (insertKV P.version ([] : Doc) pd0)
      | some vdoc =>
          let pd1 := if P.updateOverwrite then insertKV P.version P.data pd0
                     else pd0
          let mergedEq := if P.updateOverwrite then false
                          else decide (merge_dict P.data vdoc = vdoc)
          if mergedEq || P.updateOverwrite then
            if P.setActiveVersion && P.removeActiveField then .exit
            else if P.setActiveVersion then
              if current_version_is_active P.version pd1 then .brk
              else .patch pd1
            else if P.removeActiveField then
              if ¬ active_field_exists pd1 then .brk
              else .patch pd1
            else .brk
          else .patch pd1

/-- `product_data[PRODUCT_VERSION] = merge_dict(data, ...)` followed by the
active-version mode mutations (lines 245-249). -/
def updateApplyModes (P : UpdParams) (pd : PData) : PData :=
  let pd' := insertKV P.version
    (merge_dict P.data ((lookupKV P.version pd).getD [])) pd
  let pd'' := if P.setActiveVersion then set_active_version P.version pd'
              else pd'
  if P.removeActiveField then remove_active_field pd'' else pd''

/-- The `while attempt < retries` loop of `update_config_map`, recursing on
`remaining = retries − attempt`. -/
def update_loop (P : UpdParams) (env : UpdEnv) :
    Nat → Nat → List Nat → List PatchCall → UpdRun
  | 0, attempt, committed, calls => updatePost attempt committed calls
  | remaining + 1, attempt, committed, calls =>
      let a := attempt + 1
      match env.read a with
      | .notFound =>
          if P.isMainCM then update_loop P env remaining a committed calls
          else if env.createOk a then
            update_loop P env remaining a committed calls
          else ⟨.apiRaise, a, committed, calls⟩
      | .apiErr => ⟨.apiRaise, a, committed, calls⟩
      | .ok r =>
          match updateDecide P r.data with
          | .brk => updatePost a committed calls
          | .exit => ⟨.sysExit, a, committed, calls⟩
          | .patch pd =>
              let res := updatePatch P env a r (updateApplyModes P pd)
                committed calls
              update_loop P env remaining a res.1 res.2

/-- `update_config_map(data, name, namespace)` as a whole. -/
def update_config_map (P : UpdParams) (env : UpdEnv) : UpdRun :=
  update_loop P env UPDATE_RETRIES 0 [] []

/-! ## OptimisticUpdateProtocol, delete path (`catalog_delete.py`) -/

/-- `MAX_RETRIES = 100` (main ConfigMap attempt budget). -/
def MAX_RETRIES : Nat := 100

/-- `MAX_RETRIES_FOR_PROD_CM = 10` (product ConfigMap attempt budget). -/
def MAX_RETRIES_FOR_PROD_CM : Nat := 10

/-- Parameters of one `modify_config_map` call. -/
structure DelParams where
  product : String
  version : String
  key : Option String
  maxAttempts : Nat

/-- The target ConfigMap's parsed, committed data; `none` when the ConfigMap
does not exist (reads get a 404 `ApiException`). -/
abbrev DelStore := Option (List (String × PData))

/-- Fault schedule for a `modify_config_map` run, indexed by `attempt`:
whether the read raises a non-404 `ApiException`, and whether the patch is
committed (a 409 conflict and any other patch error are both merely logged
by the source, so only committed / not-committed matters). -/
structure DelEnv where
  readErr : Nat → Bool
  patchOk : Nat → Bool

/-- One `patch_namespaced_config_map` call issued by `modify_config_map`:
the body is `client.V1ConfigMap(data=config_map_data)` − a `V1ConfigMap`
with **no** metadata, hence the `resourceVersion` presented is `none`,
mirroring `catalog_delete.py` lines 313-316. -/
structure DelPatchCall where
  attempt : Nat
  token : Option String
  body : List (String × PData)
deriving DecidableEq, Repr

/-- Result of running `modify_config_map` for a bounded number of loop
iterations: a `break` (with the final committed store), a raised
`ApiException`, or `running` — the `while True` loop has consumed all the
observed iterations without terminating. -/
inductive DelResult where
  | done (store : DelStore) (attempt : Nat) (calls : List DelPatchCall)
  | raised (attempt : Nat) (calls : List DelPatchCall)
  | running (attempt : Nat) (calls : List DelPatchCall)
deriving DecidableEq, Repr

/-- The `Decide` logic of the delete path (`catalog_delete.py` lines
283-306): `none` means `break`; otherwise the new `product_data` to patch. -/
def deleteDecide (P : DelParams) (pd : PData) (vdoc : Doc) : Option PData :=
  match P.key with
  | some k =>
      if containsKV k vdoc then some (insertKV P.version (eraseKV k vdoc) pd)
      else if vdoc.isEmpty then some (eraseKV P.version pd)
      else none
  | none => some (eraseKV P.version pd)

/-- The `while True` loop of `modify_config_map`, one recursive step per
iteration.  `fuel` only bounds how long we observe the loop; the source loop
itself has no bound. -/
def delete_loop (P : DelParams) (env : DelEnv) :
    Nat → Nat → DelStore → List DelPatchCall → DelResult
  | 0, attempt, _store, calls => .running attempt calls
  | fuel + 1, attempt, store, calls =>
      let a := attempt + 1
      if env.readErr a then .raised a calls
      else
        match store with
        | none =>
            if a < P.maxAttempts then delete_loop P env fuel a none calls
            else .raised a calls
        | some cmData =>
            match lookupKV P.product cmData with
            | none => .done store a calls
            | some pd =>
                match lookupKV P.version pd with
                | none => .done store a calls
                | some vdoc =>
                    match deleteDecide P pd vdoc with
                    | none => .done store a calls
                    | some pd' =>
                        let body := insertKV P.product pd' cmData
                        let calls' := (⟨a, none, body⟩ : DelPatchCall) :: calls
                        if env.patchOk a then
                          delete_loop P env fuel a (some body) calls'
                        else delete_loop P env fuel a store calls'

/-- `modify_config_map(name, namespace, product, product_version, key,
max_attempts)` observed for `fuel` iterations. -/
def modify_config_map (P : DelParams) (env : DelEnv) (store : DelStore)
    (fuel : Nat) : DelResult :=
  delete_loop P env fuel 0 store []

/-! ## MigrationOrchestrator (`migration/`) -/

/-- A value stored under a product key of a ConfigMap's `data`: either a
serialized product data mapping, or the literal empty string `''` written by
`migrate_config_map_data` when a product keeps no main fields
(`yaml.safe_load('')` is Python `None`). -/
inductive SVal where
  | pdata (pd : PData)
  | emptyStr
deriving DecidableEq, Repr

/-- A stored ConfigMap: labels, data and the backend-maintained
`resourceVersion` (encoded as `Nat`; Python-falsy tokens — `None` / `''` —
are encoded as `0`). -/
structure ConfigMap where
  labels : List (String × String)
  data : List (String × SVal)
  resourceVersion : Nat
deriving DecidableEq, Repr

/-- The namespace's ConfigMaps, by name. -/
abbrev MigStore := List (List Char × ConfigMap)

/-- Store lookup by ConfigMap name. -/
def lookupName (k : List Char) : MigStore → Option ConfigMap
  | [] => none
  | (k', cm) :: rest => if k' = k then some cm else lookupName k rest

/-- Events the migration run emits, for stating the claims: successful
creates/deletes, rollback invocations, the resource-version verification
(recorded as the pair compared), and the invocation of the rename step. -/
inductive MigEv where
  | evCreate (name : List Char)
  | evDelete (name : List Char)
  | evRollback
  | evVerify (initRV curRV : Nat)
  | evRename
deriving DecidableEq, Repr

/-- World state threaded through a migration run: the store, per-operation
call counters (used to index the fault schedule), the next fresh
`resourceVersion` the backend will assign, and the event trace (most recent
first). -/
structure MigWorld where
  store : MigStore
  nRead : Nat
  nCreate : Nat
  nDelete : Nat
  nList : Nat
  nextRV : Nat
  trace : List MigEv
deriving Repr

/-- Fault schedule of a migration run.  Creates and deletes fail
adversarially by target name; reads and lists fail by call index; `rvAt i`
overrides the `resourceVersion` observed by read number `i`, modelling
concurrent writers bumping the object's token between reads. -/
structure MigFaults where
  readErr : Nat → Bool
  createErr : List Char → Bool
  deleteErr : List Char → Bool
  listErr : Nat → Bool
  rvAt : Nat → Option Nat

/-- `KubernetesApi.read_config_map`: `None` on an empty name, an injected
error, or a 404; otherwise the stored ConfigMap with the observed
`resourceVersion`. -/
def read_config_map (F : MigFaults) (name : List Char) (w : MigWorld) :
    Option ConfigMap × MigWorld :=
  if name.isEmpty then (none, w)
  else
    let i := w.nRead
    let w' := { w with nRead := i + 1 }
    if F.readErr i then (none, w')
    else
      match lookupName name w.store with
      | none => (none, w')
      | some cm =>
          (some { cm with resourceVersion := (F.rvAt i).getD cm.resourceVersion },
           w')

/-- `KubernetesApi.create_config_map`: `False` on an injected error, an
invalid (empty) name, or `AlreadyExists`; otherwise stores the new ConfigMap
with a fresh `resourceVersion` and returns `True`. -/
def create_config_map (F : MigFaults) (name : List Char)
    (data : List (String × SVal)) (label : List (String × String))
    (w : MigWorld) : Bool × MigWorld :=
  let w' := { w with nCreate := w.nCreate + 1 }
  if F.createErr name then (false, w')
  else if name.isEmpty then (false, w')
  else if (lookupName name w'.store).isSome then (false, w')
  else
    (true,
     { w' with
        store := w'.store ++ [(name, ⟨label, data, w'.nextRV⟩)],
        nextRV := w'.nextRV + 1,
        trace := .evCreate name :: w'.trace })

/-- `KubernetesApi.delete_config_map`: `False` on an injected error or when
the name is absent (404 `ApiException`); otherwise removes it. -/
def delete_config_map (F : MigFaults) (name : List Char) (w : MigWorld) :
    Bool × MigWorld :=
  let w' := { w with nDelete := w.nDelete + 1 }
  if F.deleteErr name then (false, w')
  else if (lookupName name w'.store).isSome then
    (true,
     { w' with
        store := w'.store.filter (fun c => c.1 ≠ name),
        trace := .evDelete name :: w'.trace })
  else (false, w')

/-- `KubernetesApi.list_config_map_names`: the names of the ConfigMaps
carrying the label, `[]` on an injected error (`list_config_map` returns
`None` and the wrapper turns it into `[]`). -/
def list_config_map_names (F : MigFaults) (label : String × String)
    (w : MigWorld) : List (List Char) × MigWorld :=
  let i := w.nList
  let w' := { w with nList := i + 1 }
  if F.listErr i then ([], w')
  else
    ((w'.store.filter (fun c => decide (label ∈ c.2.labels))).map (fun c => c.1),
     w')

/-- `CONFIG_MAP_TEMP = "cray-product-catalog-temp"` (`migration/__init__.py`). -/
def CONFIG_MAP_TEMP : List Char := "cray-product-catalog-temp".toList

/-- `_is_product_config_map` (`migration/exit_handler.py`): non-empty and a
full match of `PRODUCT_CONFIG_MAP_PATTERN =
'^(cray-product-catalog)-([a-z0-9.-]+)$'` — the fixed base name, a hyphen,
and a non-empty suffix over `[a-z0-9.-]`. -/
def is_product_config_map (name : List Char) : Bool :=
  let pre := "cray-product-catalog-".toList
  decide (name.take pre.length = pre) &&
    ¬ (name.drop pre.length).isEmpty &&
    (name.drop pre.length).all isNameChar

/-- `ExitHandler.rollback`: list the ConfigMaps carrying the cataloging
label, keep those matching the product-ConfigMap pattern, and delete each
(collecting failures only for logging). -/
def rollback (F : MigFaults) (w : MigWorld) : MigWorld :=
  let w := { w with trace := .evRollback :: w.trace }
  let res := list_config_map_names F CRAY_DATA_CATALOG_LABEL w
  let selected := res.1.filter is_product_config_map
  selected.foldl (fun wAcc name => (delete_config_map F name wAcc).2) res.2

/-- The inner per-version loop of `migrate_config_map_data`: split every
version's document and accumulate `main_versions_data` and
`product_versions_data` (skipping empty halves). -/
def splitVersions : PData → PData × PData
  | [] => ([], [])
  | (version, doc) :: rest =>
      let halves := split_catalog_data doc
      let acc := splitVersions rest
      let mainAcc := if halves.1.isEmpty then acc.1 else (version, halves.1) :: acc.1
      let prodAcc := if halves.2.isEmpty then acc.2 else (version, halves.2) :: acc.2
      (mainAcc, prodAcc)

/-- `ConfigMapDataHandler.migrate_config_map_data`: for every product parse
its data, split each version, replace the product's main entry (or write
`''` when no main fields remain) and collect one product ConfigMap data dict
per product with `component_versions` data.  A parse failure — here, a
product entry that is the empty string, whose `safe_load` is `None` —
raises, returning `none`. -/
def migrate_config_map_data :
    List (String × SVal) →
      Option (List (String × SVal) × List (List (String × SVal)))
  | [] => some ([], [])
  | (product, sval) :: rest =>
      match sval with
      | .emptyStr => none
      | .pdata pd =>
          let halves := splitVersions pd
          let entry : String × SVal :=
            if halves.1.isEmpty then (product, .emptyStr)
            else (product, .pdata halves.1)
          let prodCMs : List (List (String × SVal)) :=
            if halves.2.isEmpty then []
            else [[(product, SVal.pdata halves.2)]]
          match migrate_config_map_data rest with
          | none => none
          | some acc => some (entry :: acc.1, prodCMs ++ acc.2)

/-- The ConfigMap name `create_product_config_maps` derives for one product
data dict: `format_product_cm_name(PRODUCT_CATALOG_CONFIG_MAP_NAME,
list(product_data.keys())[0])`. -/
def cmNameOf (product_data : List (String × SVal)) : List Char :=
  format_product_cm_name PRODUCT_CATALOG_CONFIG_MAP_NAME
    (((product_data.head?.map (fun kv => kv.1)).getD "").toList)

/-- `ConfigMapDataHandler.create_product_config_maps`: derive each product
ConfigMap's name with `format_product_cm_name` and create it with the
cataloging label; the first failure aborts with `False`. -/
def create_product_config_maps (F : MigFaults) :
    List (List (String × SVal)) → MigWorld → Bool × MigWorld
  | [], w => (true, w)
  | product_data :: rest, w =>
      let res := create_config_map F (cmNameOf product_data) product_data
        PRODUCT_CATALOG_CONFIG_MAP_LABEL w
      if res.1 then create_product_config_maps F rest res.2
      else (false, res.2)

/-- The names the rollback handler will delete, given a store: the names of
the ConfigMaps carrying the cataloging label that match the
product-ConfigMap pattern. -/
def selectedOf (st : MigStore) : List (List Char) :=
  ((st.filter (fun c => decide (CRAY_DATA_CATALOG_LABEL ∈ c.2.labels))).map
    (fun c => c.1)).filter is_product_config_map

/-- `ConfigMapDataHandler.create_temp_config_map`. -/
def create_temp_config_map (F : MigFaults) (data : List (String × SVal))
    (w : MigWorld) : Bool × MigWorld :=
  create_config_map F CONFIG_MAP_TEMP data PRODUCT_CATALOG_CONFIG_MAP_LABEL w

/-- The retry-only-delete tail of `rename_config_map` (delete of the backed
up ConfigMap failed once; retry it up to 10 times, then report success
regardless). -/
def renameDeleteRetry (F : MigFaults) (rename_from : List Char) :
    Nat → MigWorld → MigWorld
  | 0, w => w
  | fuel + 1, w =>
      let res := delete_config_map F rename_from w
      if res.1 then res.2 else renameDeleteRetry F rename_from fuel res.2

/-- The `while attempt < 10` loop of `rename_config_map`: read the staging
ConfigMap, create the destination with its data and the given label, then
delete the staging ConfigMap; create failures and read failures retry, a
delete failure falls back to `renameDeleteRetry` and still succeeds. -/
def renameLoop (F : MigFaults) (rename_from rename_to : List Char)
    (label : List (String × String)) : Nat → MigWorld → Bool × MigWorld
  | 0, w => (false, w)
  | fuel + 1, w =>
      let r := read_config_map F rename_from w
      match r.1 with
      | none => renameLoop F rename_from rename_to label fuel r.2
      | some cm =>
          let c := create_config_map F rename_to cm.data label r.2
          if c.1 then
            let d := delete_config_map F rename_from c.2
            if d.1 then (true, d.2)
            else (true, renameDeleteRetry F rename_from 10 d.2)
          else renameLoop F rename_from rename_to label fuel c.2

/-- `ConfigMapDataHandler.rename_config_map(rename_from, rename_to,
namespace, label)`: delete the destination name, then run the
read/create/delete loop. -/
def rename_config_map (F : MigFaults) (rename_from rename_to : List Char)
    (label : List (String × String)) (w : MigWorld) : Bool × MigWorld :=
  let d := delete_config_map F rename_to w
  if d.1 then renameLoop F rename_from rename_to label 10 d.2
  else (false, d.2)

/-- `is_migrated` (`migration/main.py`): read the main ConfigMap; `True` iff
its labels carry the marker
`PRODUCT_CATALOG_CONFIG_MAP_LABEL_KEY ↦ "cray-product-catalog"`. -/
def is_migrated (F : MigFaults) (w : MigWorld) : Bool × MigWorld :=
  let r := read_config_map F PRODUCT_CATALOG_CONFIG_MAP_NAME w
  match r.1 with
  | none => (false, r.2)
  | some cm =>
      (¬ cm.labels.isEmpty &&
         lookupKV PRODUCT_CATALOG_CONFIG_MAP_LABEL_KEY cm.labels ==
           some "cray-product-catalog",
       r.2)

/-- How `migration.main.main()` ends. -/
inductive MigResult where
  | success
  | sysExit
deriving DecidableEq, Repr

/-- The tail of `migration.main.main()` after the verification loop broke:
rename the staging ConfigMap over the main name; on failure roll back and
exit.  `evRename` marks the invocation of the rename step. -/
def migrationRename (F : MigFaults) (w : MigWorld) : MigResult × MigWorld :=
  let w := { w with trace := .evRename :: w.trace }
  let r := rename_config_map F CONFIG_MAP_TEMP PRODUCT_CATALOG_CONFIG_MAP_NAME
    PRODUCT_CATALOG_CONFIG_MAP_LABEL w
  if r.1 then (.success, r.2)
  else (.sysExit, rollback F r.2)

/-- The `while attempt < max_attempts` (= 2) loop of
`migration.main.main()`.  Exhausting the fuel means the last iteration ended
in the resource-version-mismatch `continue`, so `migration_failed` is set
and the code after the loop raises `SystemExit`. -/
def migrationLoop (F : MigFaults) : Nat → MigWorld → MigResult × MigWorld
  | 0, w => (.sysExit, w)
  | remaining + 1, w =>
      let r := read_config_map F PRODUCT_CATALOG_CONFIG_MAP_NAME w
      match r.1 with
      | none => (.sysExit, r.2)
      | some cm =>
          let initRV := cm.resourceVersion
          if initRV = 0 then (.sysExit, r.2)
          else if cm.data.isEmpty then (.sysExit, r.2)
          else
            match migrate_config_map_data cm.data with
            | none => (.sysExit, r.2)
            | some halves =>
                let cp := create_product_config_maps F halves.2 r.2
                if ¬ cp.1 then (.sysExit, rollback F cp.2)
                else
                  let ct := create_temp_config_map F halves.1 cp.2
                  if ¬ ct.1 then (.sysExit, rollback F ct.2)
                  else
                    let v := read_config_map F PRODUCT_CATALOG_CONFIG_MAP_NAME
                      ct.2
                    match v.1 with
                    | none =>
                        -- curr_resource_version stays '' ≠ init
                        let w1 := { v.2 with
                          trace := .evVerify initRV 0 :: v.2.trace }
                        migrationLoop F remaining (rollback F w1)
                    | some cm2 =>
                        if cm2.resourceVersion = 0 then
                          (.sysExit, rollback F v.2)
                        else
                          let w1 := { v.2 with
                            trace := .evVerify initRV cm2.resourceVersion ::
                              v.2.trace }
                          if cm2.resourceVersion ≠ initRV then
                            migrationLoop F remaining (rollback F w1)
                          else migrationRename F w1

/-- `migration.main.main()`: short-circuit when already migrated, otherwise
run the two-attempt migration loop. -/
def migration_main (F : MigFaults) (w : MigWorld) : MigResult × MigWorld :=
  let m := is_migrated F w
  if m.1 then (.success, m.2) else migrationLoop F 2 m.2

/-! ## `catalog_update.main()` — caller-precondition checks -/

/-- The environment-derived configuration of one `catalog_update.main()`
invocation. -/
structure UpdMainCfg where
  setActiveVersion : Bool
  removeActiveField : Bool
  haveYamlFile : Bool
  haveYamlString : Bool
  validateSchema : Bool
  product : List Char
  mainConfigMap : List Char

/-- The externally visible actions `catalog_update.main()` performs, in
order: Kubernetes client configuration, YAML input reading, and the
`update_config_map(data, name, namespace)` calls (each of which does the
backend reads and writes). -/
inductive MainOp where
  | opLoadK8s
  | opReadYamlFile
  | opReadYamlString
  | opUpdateCM (name : List Char) (data : Doc)
deriving DecidableEq, Repr

/-- The tail of `catalog_update.main()` after the YAML input was read:
schema validation, product ConfigMap name derivation, the data split and the
`update_config_map` calls. -/
def catalogUpdateAfterInput (cfg : UpdMainCfg) (content : Doc)
    (schemaOk : Bool) (ops : List MainOp) : UpdOutcome × List MainOp :=
  if cfg.validateSchema && ¬ schemaOk then (.sysExit, ops)
  else
    let product_config_map :=
      format_product_cm_name cfg.mainConfigMap cfg.product
    let halves := split_catalog_data content
    if ¬ halves.2.isEmpty && product_config_map.isEmpty then (.sysExit, ops)
    else
      let ops1 := ops ++ [.opUpdateCM cfg.mainConfigMap halves.1]
      if ¬ halves.2.isEmpty then
        (.completed, ops1 ++ [.opUpdateCM product_config_map halves.2])
      else (.completed, ops1)

/-- `catalog_update.main()` (lines 276-328): the flag-combination check
fires before `load_k8s()`, before the YAML input is read and before any
`update_config_map` call.  `content` is the parsed YAML payload and
`schemaOk` the verdict of the external schema validator. -/
def catalog_update_main (cfg : UpdMainCfg) (content : Doc)
    (schemaOk : Bool) : UpdOutcome × List MainOp :=
  if cfg.setActiveVersion && cfg.removeActiveField then (.sysExit, [])
  else
    let ops0 : List MainOp := [.opLoadK8s]
    if cfg.haveYamlFile then
      catalogUpdateAfterInput cfg content schemaOk (ops0 ++ [.opReadYamlFile])
    else if cfg.haveYamlString then
      catalogUpdateAfterInput cfg content schemaOk (ops0 ++ [.opReadYamlString])
    else (.sysExit, ops0)

/-! ## Accessors and concrete fixtures used by the theorems -/

/-- The patch calls a delete-path run issued. -/
def DelResult.calls : DelResult → List DelPatchCall
  | .done _ _ c => c
  | .raised _ c => c
  | .running _ c => c

/-- Whether a delete-path run is still looping. -/
def DelResult.isRunning : DelResult → Bool
  | .running _ _ => true
  | _ => false

/-- A patch call presents exactly the token returned by the read of its
attempt. -/
def tokenFromRead (env : UpdEnv) (c : PatchCall) : Bool :=
  match env.read c.attempt with
  | .ok r => c.token == r.resourceVersion
  | _ => false

/-- A one-product catalog payload whose version document carries one main
field. -/
def exDoc : Doc := [("configuration", Val.vstr "cfg")]

/-- `update_config_map` parameters for the main ConfigMap, all modes off. -/
def exUpdParams : UpdParams :=
  ⟨"sat", "2.0.0", exDoc, true, false, false, false⟩

/-- Backend behaviour where every read succeeds with an empty ConfigMap and
every patch is committed: concurrent writers keep emptying the object, so
the writer re-patches on every attempt. -/
def envAllCommit : UpdEnv :=
  ⟨fun _ => .ok ⟨[], "1"⟩, fun _ => true, fun _ => .ok⟩

/-- Backend behaviour where the first read already shows the desired data,
so the update short-circuits. -/
def envShortCircuit : UpdEnv :=
  ⟨fun _ => .ok ⟨[("sat", [("2.0.0", exDoc)])], "1"⟩, fun _ => true,
   fun _ => .ok⟩

/-- Delete-path parameters for a product ConfigMap (budget 10), removing a
whole version. -/
def exDelParams : DelParams :=
  ⟨"sat", "2.0.0", none, MAX_RETRIES_FOR_PROD_CM⟩

/-- Delete-path backend behaviour: reads never error, no patch is ever
committed (sustained 409 conflicts). -/
def envNeverCommit : DelEnv := ⟨fun _ => false, fun _ => false⟩

/-- Delete-path backend behaviour with no faults at all. -/
def envDelOk : DelEnv := ⟨fun _ => false, fun _ => true⟩

/-- A stored ConfigMap datum with the target product and version present. -/
def exDelStore : List (String × PData) := [("sat", [("2.0.0", exDoc)])]

/-- A fault-free migration environment: no injected read/create/delete/list
failures and no concurrent writers touching any resource version. -/
def noFaults : MigFaults :=
  ⟨fun _ => false, fun _ => false, fun _ => false, fun _ => false,
   fun _ => none⟩

/-- A main ConfigMap that already carries the partitioned-layout marker
label. -/
def exMigratedCM : ConfigMap :=
  ⟨PRODUCT_CATALOG_CONFIG_MAP_LABEL, [("sat", .pdata [("2.0.0", exDoc)])], 7⟩

/-- A world whose main ConfigMap is already migrated. -/
def exMigratedWorld : MigWorld :=
  ⟨[(PRODUCT_CATALOG_CONFIG_MAP_NAME, exMigratedCM)], 0, 0, 0, 0, 100, []⟩

/-- A not-yet-migrated combined main ConfigMap holding two products, each
with `component_versions` data (the spec's rollback scenario `{A, B}`). -/
def exCombinedCM : ConfigMap :=
  ⟨[], [("cos", .pdata [("2.0.0",
          [("component_versions", Val.mcons "docker" (Val.vstr "imgs")
              Val.mnil),
           ("configuration", Val.vstr "c")])]),
       ("sat", .pdata [("2.3.0",
          [("component_versions", Val.vstr "y")])])], 5⟩

/-- A pre-migration world containing only the combined main ConfigMap. -/
def exCombinedWorld : MigWorld :=
  ⟨[(PRODUCT_CATALOG_CONFIG_MAP_NAME, exCombinedCM)], 0, 0, 0, 0, 50, []⟩

/-- Fault schedule that fails exactly the creation of the temporary staging
main ConfigMap (`CreateStagingMain`) and nothing else. -/
def tempFailFaults : MigFaults :=
  ⟨fun _ => false, fun nm => decide (nm = CONFIG_MAP_TEMP), fun _ => false,
   fun _ => false, fun _ => none⟩

/-- What `migrate_config_map_data` produces from `exCombinedCM.data`:
the per-product `component_versions` dicts. -/
def exProdList : List (List (String × SVal)) :=
  [[("cos", .pdata [("2.0.0",
      [("component_versions", Val.mcons "docker" (Val.vstr "imgs")
          Val.mnil)])])],
   [("sat", .pdata [("2.3.0", [("component_versions", Val.vstr "y")])])]]

/-- What `migrate_config_map_data` produces from `exCombinedCM.data`: the
repartitioned main data (`sat` keeps no main fields, hence `''`). -/
def exMainData : List (String × SVal) :=
  [("cos", .pdata [("2.0.0", [("configuration", Val.vstr "c")])]),
   ("sat", .emptyStr)]

/-- Fault schedule that fails exactly the creation of the second product's
ConfigMap (`cray-product-catalog-sat`), after the first product's ConfigMap
was created. -/
def prodFailFaults : MigFaults :=
  ⟨fun _ => false, fun nm => decide (nm = "cray-product-catalog-sat".toList),
   fun _ => false, fun _ => false, fun _ => none⟩

/-- Fault schedule where a concurrent writer bumps the main ConfigMap's
resource version before each verification read (reads 2 and 4): both
whole-process attempts observe a token mismatch. -/
def mismatchFaults : MigFaults :=
  ⟨fun _ => false, fun _ => false, fun _ => false, fun _ => false,
   fun i => if i = 2 then some 999 else if i = 4 then some 998 else none⟩

/-- A migration run result in which any rename was licensed by a successful
resource-version verification: if the rename step was invoked, some
non-zero token was re-read equal to the token recorded before
repartitioning. -/
def renameLicensed (res : MigResult × MigWorld) : Prop :=
  MigEv.evRename ∈ res.2.trace →
  ∃ rv, rv ≠ 0 ∧ MigEv.evVerify rv rv ∈ res.2.trace

/-! ## Association-list lemmas -/

theorem lookupKV_map_update {α : Type} (k : String) (v : α)
    (l : List (String × α)) (h : containsKV k l = true) :
    lookupKV k (l.map (fun kv => if kv.1 = k then (k, v) else kv)) = some v
    := by
  induction l with
  | nil => simp [containsKV, lookupKV] at h
  | cons a rest ih =>
      obtain ⟨k', v'⟩ := a
      simp only [List.map_cons]
      by_cases hk : k' = k
      · subst hk
        have hred : (if (k', v').1 = k' then (k', v) else (k', v')) = (k', v)
          := if_pos rfl
        rw [hred]
        simp [lookupKV]
      · have h' : containsKV k rest = true := by
          simpa [containsKV, lookupKV, hk] using h
        have hred : (if (k', v').1 = k then (k, v) else (k', v')) = (k', v')
          := by simp [hk]
        rw [hred]
        simp only [lookupKV]
        rw [if_neg hk]
        exact ih h'

theorem lookupKV_append_new {α : Type} (k : String) (v : α)
    (l : List (String × α)) (h : containsKV k l = false) :
    lookupKV k (l ++ [(k, v)]) = some v := by
  induction l with
  | nil => simp [lookupKV]
  | cons a rest ih =>
      obtain ⟨k', v'⟩ := a
      by_cases hk : k' = k
      · subst hk
        simp [containsKV, lookupKV] at h
      · have h' : containsKV k rest = false := by
          simpa [containsKV, lookupKV, hk] using h
        simp only [List.cons_append, lookupKV]
        rw [if_neg hk]
        exact ih h'

theorem lookupKV_insert_self {α : Type} (k : String) (v : α)
    (l : List (String × α)) : lookupKV k (insertKV k v l) = some v := by
  unfold insertKV
  by_cases h : containsKV k l = true
  · rw [if_pos h]
    exact lookupKV_map_update k v l h
  · rw [if_neg h]
    exact lookupKV_append_new k v l (by simpa using h)

theorem lookupKV_erase_self {α : Type} (k : String) (l : List (String × α)) :
    lookupKV k (eraseKV k l) = none := by
  induction l with
  | nil => simp [eraseKV, lookupKV]
  | cons a rest ih =>
      by_cases ha : a.1 = k
      · simpa [eraseKV, ha] using ih
      · simpa [eraseKV, lookupKV, ha] using ih

/-! ## C6 — Partition completeness of `split_catalog_data` -/

theorem split_catalog_data_eq (d : Doc) :
    split_catalog_data d =
      (d.filter (fun kv => !(PRODUCT_CM_FIELDS.contains kv.1)),
       d.filter (fun kv => PRODUCT_CM_FIELDS.contains kv.1)) := by
  unfold split_catalog_data
  by_cases h : (d.filter (fun kv => PRODUCT_CM_FIELDS.contains kv.1)).isEmpty
  · rw [List.isEmpty_iff] at h
    simp [h]
  · simp [h]

/-- C6: for every document `d`, `split_catalog_data d` partitions `d`'s
top-level keys exactly: the product half is precisely the restriction of
`d` to `PRODUCT_CM_FIELDS`, every binding of `d` lands (with its original
value) in exactly one of the two halves, and no key occurs in both. -/
theorem C6_split_catalog_data_partitions (d : Doc) :
    ((split_catalog_data d).2 =
       d.filter (fun kv => PRODUCT_CM_FIELDS.contains kv.1)) ∧
    (∀ kv : String × Val, kv ∈ d ↔
       (kv ∈ (split_catalog_data d).1 ∨ kv ∈ (split_catalog_data d).2)) ∧
    (∀ k (v v' : Val), (k, v) ∈ (split_catalog_data d).1 →
       (k, v') ∈ (split_catalog_data d).2 → False) := by
  rw [split_catalog_data_eq]
  refine ⟨rfl, fun kv => ?_, fun k v v' hv hv' => ?_⟩
  · constructor
    · intro hmem
      by_cases hp : PRODUCT_CM_FIELDS.contains kv.1
      · exact Or.inr (List.mem_filter.mpr ⟨hmem, hp⟩)
      · exact Or.inl (List.mem_filter.mpr ⟨hmem, by simpa using hp⟩)
    · rintro (hmem | hmem)
      · exact (List.mem_filter.mp hmem).1
      · exact (List.mem_filter.mp hmem).1
  · have h1 := (List.mem_filter.mp hv).2
    have h2 := (List.mem_filter.mp hv').2
    simp only [Bool.not_eq_true'] at h1
    rw [h1] at h2
    cases h2

/-! ## C7 — Name derivation bound of `format_product_cm_name` -/

theorem matchesCmPattern_cons (c : Char) (l : List Char) (h : l ≠ []) :
    matchesCmPattern (c :: l) = (isNameChar c && matchesCmPattern l) := by
  cases l with
  | nil => exact absurd rfl h
  | cons x xs => rfl

theorem matchesDnsPattern_cons (c : Char) (l : List Char) (h : l ≠ []) :
    matchesDnsPattern (c :: l) = (isLowerAlnum c && matchesCmPattern l) := by
  cases l with
  | nil => exact absurd rfl h
  | cons x xs => rfl

/-- C7, counterexample: with base name `""` and product name `"a"` the
derived name is `"-a"`, which is returned non-empty although it starts with
a hyphen and therefore violates the claimed DNS-subdomain pattern
`^[a-z0-9]([a-z0-9.-]*[a-z0-9])?$` (which the concatenation also fails, so
by the claim the empty sentinel should have been returned). -/
theorem C7_counterexample_dash_name :
    format_product_cm_name [] ['a'] = ['-', 'a'] ∧
    matchesDnsPattern (([] : List Char) ++ ['-'] ++ ['a']) = false ∧
    matchesDnsPattern (format_product_cm_name [] ['a']) = false := by
  decide

/-- C7, amended: `format_product_cm_name` returns the empty sentinel
whenever the concatenation exceeds 253 characters or fails the code's
naming pattern (non-empty, over `[a-z0-9.-]`, ending alphanumeric); every
non-empty returned name is at most 253 characters long and satisfies that
pattern; and whenever the base name starts with a lowercase alphanumeric
character, a non-empty returned name also matches the claimed DNS pattern
`^[a-z0-9]([a-z0-9.-]*[a-z0-9])?$`. -/
theorem formatCheck_empty (name : List Char)
    (h : name.length > 253 ∨ matchesCmPattern name = false) :
    formatCheck name = [] := by
  unfold formatCheck
  rcases h with h | h
  · rw [if_pos h]
  · by_cases hlen : name.length > 253
    · rw [if_pos hlen]
    · rw [if_neg hlen, if_pos (by simp [h])]

theorem formatCheck_nonempty (name : List Char)
    (h : formatCheck name ≠ []) :
    formatCheck name = name ∧ name.length ≤ 253 ∧
      matchesCmPattern name = true := by
  unfold formatCheck at h ⊢
  by_cases hlen : name.length > 253
  · rw [if_pos hlen] at h
    exact absurd rfl h
  · rw [if_neg hlen] at h ⊢
    by_cases hpat : matchesCmPattern name = true
    · rw [if_neg (by simp [hpat])]
      exact ⟨rfl, by omega, hpat⟩
    · rw [if_pos (by simpa using hpat)] at h
      exact absurd rfl h

theorem C7_format_product_cm_name_bound (config_map product : List Char) :
    ((config_map ++ ['-'] ++
        (product.map (fun c => if c = '_' then '-' else c)).map
          Char.toLower).length > 253 ∨
      matchesCmPattern (config_map ++ ['-'] ++
        (product.map (fun c => if c = '_' then '-' else c)).map
          Char.toLower) = false →
        format_product_cm_name config_map product = []) ∧
    (format_product_cm_name config_map product ≠ [] →
        (format_product_cm_name config_map product).length ≤ 253 ∧
        matchesCmPattern (format_product_cm_name config_map product) = true) ∧
    (∀ c cs, config_map = c :: cs → isLowerAlnum c = true →
        format_product_cm_name config_map product ≠ [] →
        matchesDnsPattern (format_product_cm_name config_map product) = true)
    := by
  refine ⟨fun h => formatCheck_empty _ h, fun h => ?_, fun c cs hcm hc h => ?_⟩
  · obtain ⟨heq, hlen, hpat⟩ := formatCheck_nonempty _ h
    unfold format_product_cm_name
    rw [heq]
    exact ⟨hlen, hpat⟩
  · obtain ⟨heq, _, hpat⟩ := formatCheck_nonempty _ h
    unfold format_product_cm_name
    rw [heq]
    subst hcm
    have hne : cs ++ ['-'] ++
        (product.map (fun c => if c = '_' then '-' else c)).map Char.toLower
        ≠ [] := by simp
    have hcons : (c :: cs) ++ ['-'] ++
        (product.map (fun c => if c = '_' then '-' else c)).map Char.toLower =
        c :: (cs ++ ['-'] ++
          (product.map (fun c => if c = '_' then '-' else c)).map Char.toLower)
        := by simp
    rw [hcons] at hpat ⊢
    rw [matchesDnsPattern_cons c _ hne, hc, Bool.true_and]
    rw [matchesCmPattern_cons c _ hne] at hpat
    exact (Bool.and_eq_true_iff.mp hpat).2

/-- C7 witness: at base name `"b"` and product name `"A"` the amended
theorem yields a valid DNS-subdomain-like name `"b-a"`. -/
theorem C7_format_product_cm_name_bound_witness :
    matchesDnsPattern (format_product_cm_name ['b'] ['A']) = true :=
  (C7_format_product_cm_name_bound ['b'] ['A']).2.2 'b' [] rfl (by decide)
    (by decide)

/-! ## C9 — conflicting active-version modes fail before any I/O -/

/-- C9: when both the set-active-version and the clear-active-field modes
are requested, `catalog_update.main()` raises `SystemExit` before
`load_k8s`, before reading its input and before any `update_config_map`
call: the operation list is empty, so no backend object is read or
written. -/
theorem C9_conflicting_modes_fail_fast (cfg : UpdMainCfg) (content : Doc)
    (schemaOk : Bool) (h1 : cfg.setActiveVersion = true)
    (h2 : cfg.removeActiveField = true) :
    catalog_update_main cfg content schemaOk = (.sysExit, []) := by
  unfold catalog_update_main
  rw [h1, h2]
  rfl

/-- C9 witness: a concrete invocation with both modes set performs nothing
and exits. -/
theorem C9_conflicting_modes_fail_fast_witness :
    catalog_update_main
      ⟨true, true, true, false, false, "sat".toList,
        PRODUCT_CATALOG_CONFIG_MAP_NAME⟩ exDoc true = (.sysExit, []) :=
  C9_conflicting_modes_fail_fast _ _ _ rfl rfl

/-! ## C10 — a committed final-attempt write still reports failure -/

/-- C10: an execution of `update_config_map` in which the backend commits
the patch of every attempt — including the 100th and final one — yet the
run ends in `SystemExit`: the post-loop check fires on
`attempt == retries` regardless of the last patch's success, so a reported
failure does not imply the update was not stored. -/
theorem C10_committed_final_write_reports_failure :
    (update_config_map exUpdParams envAllCommit).outcome = .sysExit ∧
    (update_config_map exUpdParams envAllCommit).attempt = UPDATE_RETRIES ∧
    (update_config_map exUpdParams envAllCommit).committed.head? =
      some UPDATE_RETRIES ∧
    envAllCommit.patch UPDATE_RETRIES = .ok :=
  ⟨rfl, rfl, rfl, rfl⟩

/-! ## C1 — which writes present the optimistic-concurrency token -/

theorem delete_loop_calls_tokenless (P : DelParams) (env : DelEnv) :
    ∀ (fuel attempt : Nat) (store : DelStore) (calls : List DelPatchCall),
      calls.all (fun c => c.token == none) = true →
      ((delete_loop P env fuel attempt store calls).calls).all
        (fun c => c.token == none) = true := by
  intro fuel
  induction fuel with
  | zero =>
      intro attempt store calls h
      simpa [delete_loop, DelResult.calls] using h
  | succ n ih =>
      intro attempt store calls h
      rw [delete_loop.eq_def]
      simp only []
      by_cases hre : env.readErr (attempt + 1) = true
      · simpa [hre, DelResult.calls] using h
      · rw [if_neg (by simpa using hre)]
        cases store with
        | none =>
            simp only []
            by_cases hlt : attempt + 1 < P.maxAttempts
            · rw [if_pos hlt]
              exact ih _ _ _ h
            · rw [if_neg hlt]
              simpa [DelResult.calls] using h
        | some cmData =>
            simp only []
            cases hp : lookupKV P.product cmData with
            | none =>
                simp only []
                simpa [DelResult.calls] using h
            | some pd =>
                simp only []
                cases hv : lookupKV P.version pd with
                | none =>
                    simp only []
                    simpa [DelResult.calls] using h
                | some vdoc =>
                    simp only []
                    cases hd : deleteDecide P pd vdoc with
                    | none =>
                        simp only []
                        simpa [DelResult.calls] using h
                    | some pd' =>
                        simp only []
                        have h' :
                            ((⟨attempt + 1, none,
                                insertKV P.product pd' cmData⟩ :
                              DelPatchCall) :: calls).all
                              (fun c => c.token == none) = true := by
                          simpa using h
                        by_cases hpo : env.patchOk (attempt + 1) = true
                        · rw [if_pos hpo]
                          exact ih _ _ _ h'
                        · rw [if_neg hpo]
                          exact ih _ _ _ h'

theorem update_loop_patches_from_read (P : UpdParams) (env : UpdEnv) :
    ∀ (fuel attempt : Nat) (committed : List Nat) (calls : List PatchCall),
      calls.all (tokenFromRead env) = true →
      ((update_loop P env fuel attempt committed calls).patches).all
        (tokenFromRead env) = true := by
  intro fuel
  induction fuel with
  | zero =>
      intro attempt committed calls h
      simpa [update_loop, updatePost] using h
  | succ n ih =>
      intro attempt committed calls h
      rw [update_loop]
      cases hr : env.read (attempt + 1) with
      | notFound =>
          simp only []
          by_cases hm : P.isMainCM = true
          · rw [if_pos hm]
            exact ih _ _ _ h
          · rw [if_neg hm]
            by_cases hc : env.createOk (attempt + 1) = true
            · rw [if_pos hc]
              exact ih _ _ _ h
            · rw [if_neg hc]
              simpa using h
      | apiErr =>
          simp only []
          simpa using h
      | ok r =>
          simp only []
          cases hd : updateDecide P r.data with
          | brk =>
              simp only []
              simpa [updatePost] using h
          | exit =>
              simp only []
              simpa using h
          | patch pd =>
              simp only []
              have h' :
                  ((⟨attempt + 1, r.resourceVersion,
                      insertKV P.product (updateApplyModes P pd) r.data⟩ :
                    PatchCall) :: calls).all (tokenFromRead env) = true := by
                simp only [List.all_cons, Bool.and_eq_true_iff]
                exact ⟨by simp [tokenFromRead, hr], h⟩
              simp only [updatePatch]
              cases hp : env.patch (attempt + 1) with
              | ok =>
                  simp only []
                  exact ih _ _ _ h'
              | conflict =>
                  simp only []
                  exact ih _ _ _ h'
              | apiErr =>
                  simp only []
                  exact ih _ _ _ h'

/-- C1: which side of the protocol presents the version token.  Every patch
`update_config_map` issues carries exactly the `resourceVersion` returned
by that same iteration's read; but **no** patch `modify_config_map`
(the delete path) issues carries any token at all — its `V1ConfigMap` body
has no metadata, so the backend performs no conflict check for deletes, in
contradiction with the in-file comment claiming concurrency protection.
The last conjunct evaluates a concrete delete run: its one patch presents
`none`. -/
theorem C1_token_presented_update_only :
    (∀ (P : UpdParams) (env : UpdEnv),
      ((update_config_map P env).patches).all (tokenFromRead env) = true) ∧
    (∀ (P : DelParams) (env : DelEnv) (store : DelStore) (fuel : Nat),
      ((modify_config_map P env store fuel).calls).all
        (fun c => c.token == none) = true) ∧
    modify_config_map exDelParams envDelOk (some exDelStore) 5 =
      .done (some [("sat", [])]) 2 [⟨1, none, [("sat", [])]⟩] :=
  ⟨fun P env => update_loop_patches_from_read P env UPDATE_RETRIES 0 [] [] rfl,
   fun P env store fuel => delete_loop_calls_tokenless P env fuel 0 store []
     rfl,
   rfl⟩

/-! ## C4 — attempt budgets and loop termination -/

set_option maxRecDepth 10000 in
/-- C4, counterexample: under sustained patch conflicts the delete path's
`while True` loop is still running after its role's budget of 10 attempts —
and still after 1000 — with no fatal error surfaced; the budget only bounds
the not-found read retries, so the claim that both retry loops terminate
within their attempt budget is false for the delete loop. -/
theorem C4_counterexample_delete_loop_unbounded :
    (modify_config_map exDelParams envNeverCommit (some exDelStore)
        MAX_RETRIES_FOR_PROD_CM).isRunning = true ∧
    (modify_config_map exDelParams envNeverCommit (some exDelStore)
        1000).isRunning = true :=
  ⟨rfl, rfl⟩

theorem update_loop_attempt_le (P : UpdParams) (env : UpdEnv) :
    ∀ (fuel attempt : Nat) (committed : List Nat) (calls : List PatchCall),
      (update_loop P env fuel attempt committed calls).attempt ≤
        attempt + fuel := by
  intro fuel
  induction fuel with
  | zero =>
      intro attempt committed calls
      simp [update_loop, updatePost]
  | succ n ih =>
      intro attempt committed calls
      rw [update_loop]
      cases hr : env.read (attempt + 1) with
      | notFound =>
          simp only []
          by_cases hm : P.isMainCM = true
          · rw [if_pos hm]
            exact Nat.le_trans (ih _ _ _) (by omega)
          · rw [if_neg hm]
            by_cases hc : env.createOk (attempt + 1) = true
            · rw [if_pos hc]
              exact Nat.le_trans (ih _ _ _) (by omega)
            · rw [if_neg hc]
              simp only []
              omega
      | apiErr =>
          simp only []
          omega
      | ok r =>
          simp only []
          cases hd : updateDecide P r.data with
          | brk =>
              simp only [updatePost]
              omega
          | exit =>
              simp only []
              omega
          | patch pd =>
              simp only [updatePatch]
              cases hp : env.patch (attempt + 1) with
              | ok =>
                  simp only []
                  exact Nat.le_trans (ih _ _ _) (by omega)
              | conflict =>
                  simp only []
                  exact Nat.le_trans (ih _ _ _) (by omega)
              | apiErr =>
                  simp only []
                  exact Nat.le_trans (ih _ _ _) (by omega)

theorem update_loop_completed_ne (P : UpdParams) (env : UpdEnv) :
    ∀ (fuel attempt : Nat) (committed : List Nat) (calls : List PatchCall),
      (update_loop P env fuel attempt committed calls).outcome =
        UpdOutcome.completed →
      (update_loop P env fuel attempt committed calls).attempt ≠
        UPDATE_RETRIES := by
  intro fuel
  induction fuel with
  | zero =>
      intro attempt committed calls h
      by_cases ha : attempt = UPDATE_RETRIES
      · simp [update_loop, updatePost, ha] at h
      · simpa [update_loop, updatePost, ha] using ha
  | succ n ih =>
      intro attempt committed calls h
      rw [update_loop] at h ⊢
      cases hr : env.read (attempt + 1) with
      | notFound =>
          rw [hr] at h
          simp only [] at h ⊢
          by_cases hm : P.isMainCM = true
          · rw [if_pos hm] at h ⊢
            exact ih _ _ _ h
          · rw [if_neg hm] at h ⊢
            by_cases hc : env.createOk (attempt + 1) = true
            · rw [if_pos hc] at h ⊢
              exact ih _ _ _ h
            · rw [if_neg hc] at h ⊢
              simp only [] at h
              cases h
      | apiErr =>
          rw [hr] at h
          simp only [] at h
          cases h
      | ok r =>
          rw [hr] at h
          simp only [] at h ⊢
          cases hd : updateDecide P r.data with
          | brk =>
              rw [hd] at h
              simp only [] at h ⊢
              by_cases ha : attempt + 1 = UPDATE_RETRIES
              · simp [updatePost, ha] at h
              · simpa [updatePost, ha] using ha
          | exit =>
              rw [hd] at h
              simp only [] at h
              cases h
          | patch pd =>
              rw [hd] at h
              simp only [updatePatch] at h ⊢
              cases hp : env.patch (attempt + 1) with
              | ok =>
                  rw [hp] at h
                  simp only [] at h ⊢
                  exact ih _ _ _ h
              | conflict =>
                  rw [hp] at h
                  simp only [] at h ⊢
                  exact ih _ _ _ h
              | apiErr =>
                  rw [hp] at h
                  simp only [] at h ⊢
                  exact ih _ _ _ h

set_option maxRecDepth 10000 in
/-- C4, amended: the update loop's `while attempt < retries` guarantees at
most 100 attempts for every backend behaviour, and a normal completion
implies the loop broke strictly before exhausting the budget (reaching the
budget raises).  The delete loop's budget bounds only its
ConfigMap-not-found read retries — with the ConfigMap absent it raises
exactly at its budget of 10 attempts — while conflicted patches are retried
indefinitely (still running after 1000 iterations, far beyond either
budget). -/
theorem C4_attempt_budgets :
    (∀ (P : UpdParams) (env : UpdEnv),
       (update_config_map P env).attempt ≤ UPDATE_RETRIES) ∧
    (∀ (P : UpdParams) (env : UpdEnv),
       (update_config_map P env).outcome = UpdOutcome.completed →
       (update_config_map P env).attempt < UPDATE_RETRIES) ∧
    modify_config_map exDelParams envNeverCommit none 1000 =
      .raised MAX_RETRIES_FOR_PROD_CM [] ∧
    (modify_config_map exDelParams envNeverCommit (some exDelStore)
        1000).isRunning = true := by
  refine ⟨fun P env => ?_, fun P env h => ?_, rfl, rfl⟩
  · have := update_loop_attempt_le P env UPDATE_RETRIES 0 [] []
    simpa [update_config_map] using this
  · have h1 := update_loop_attempt_le P env UPDATE_RETRIES 0 [] []
    have h2 := update_loop_completed_ne P env UPDATE_RETRIES 0 [] [] h
    unfold update_config_map at *
    omega

/-- C4 witness: a run that short-circuits on its first attempt completes
strictly within the budget. -/
theorem C4_attempt_budgets_witness :
    (update_config_map exUpdParams envShortCircuit).attempt <
      UPDATE_RETRIES :=
  C4_attempt_budgets.2.1 exUpdParams envShortCircuit rfl

/-! ## C5 — deleting the last key removes the whole version entry -/

/-- C5: when `key` is the last remaining field of version `ver`'s document
and the backend neither errors nor conflicts, `modify_config_map` with that
key terminates successfully (in three iterations: pop the key, then — the
key now gone and no keys left — pop the version, then observe the version
absent and break), and the stored product data afterwards has **no** entry
for `ver` at all, not an empty mapping. -/
theorem C5_delete_last_key_removes_version
    (cm : List (String × PData)) (pd : PData) (p ver k : String) (v : Val)
    (m n : Nat)
    (hp : lookupKV p cm = some pd)
    (hv : lookupKV ver pd = some [(k, v)]) :
    ∃ (cmF : List (String × PData)) (calls : List DelPatchCall),
      modify_config_map ⟨p, ver, some k, m⟩ envDelOk (some cm) (n + 3) =
        .done (some cmF) 3 calls ∧
      lookupKV ver ((lookupKV p cmF).getD []) = none := by
  have e1 : eraseKV k [(k, v)] = [] := by simp [eraseKV]
  refine ⟨insertKV p (eraseKV ver (insertKV ver [] pd))
      (insertKV p (insertKV ver [] pd) cm),
    [⟨2, none, insertKV p (eraseKV ver (insertKV ver [] pd))
        (insertKV p (insertKV ver [] pd) cm)⟩,
     ⟨1, none, insertKV p (insertKV ver [] pd) cm⟩], ?_, ?_⟩
  · unfold modify_config_map
    rw [delete_loop.eq_def]
    simp [envDelOk, deleteDecide, containsKV, lookupKV, hp, hv, e1]
    rw [delete_loop.eq_def]
    simp [envDelOk, deleteDecide, containsKV, lookupKV,
      lookupKV_insert_self, e1]
    rw [delete_loop.eq_def]
    simp [envDelOk, deleteDecide, containsKV, lookupKV,
      lookupKV_insert_self, lookupKV_erase_self]
  · simp [lookupKV_insert_self, lookupKV_erase_self]

/-- C5 witness: deleting the sole field `"configuration"` of version
`"2.0.0"` leaves the stored product `"sat"` with no `"2.0.0"` entry. -/
theorem C5_delete_last_key_removes_version_witness :
    ∃ (cmF : List (String × PData)) (calls : List DelPatchCall),
      modify_config_map
          ⟨"sat", "2.0.0", some "configuration", MAX_RETRIES_FOR_PROD_CM⟩
          envDelOk (some exDelStore) 3 =
        .done (some cmF) 3 calls ∧
      lookupKV "2.0.0" ((lookupKV "sat" cmF).getD []) = none :=
  C5_delete_last_key_removes_version exDelStore [("2.0.0", exDoc)] "sat"
    "2.0.0" "configuration" (Val.vstr "cfg") MAX_RETRIES_FOR_PROD_CM 0 rfl rfl

/-! ## C8 — migration is a no-op on an already-partitioned layout -/

/-- C8: when the main ConfigMap already carries the partitioned-layout
marker label (and the initial read is not faulted), `migration_main`
returns success, the store is byte-for-byte unchanged, and the event trace
is unchanged — no backend object was created, modified or deleted. -/
theorem C8_migration_noop_when_migrated (F : MigFaults) (w : MigWorld)
    (cm : ConfigMap)
    (hcm : lookupName PRODUCT_CATALOG_CONFIG_MAP_NAME w.store = some cm)
    (hlab : lookupKV PRODUCT_CATALOG_CONFIG_MAP_LABEL_KEY cm.labels =
      some "cray-product-catalog")
    (hread : F.readErr w.nRead = false) :
    (migration_main F w).1 = .success ∧
    (migration_main F w).2.store = w.store ∧
    (migration_main F w).2.trace = w.trace := by
  have hne : cm.labels ≠ [] := by
    intro h0
    rw [h0] at hlab
    simp [lookupKV] at hlab
  have hie : cm.labels.isEmpty = false := by
    cases hcl : cm.labels with
    | nil => exact absurd hcl hne
    | cons a l => rfl
  have hn : PRODUCT_CATALOG_CONFIG_MAP_NAME.isEmpty = false := by decide
  unfold migration_main is_migrated read_config_map
  simp [hn, hread, hcm, hie, hlab]

/-- C8 witness: re-running migration on a concrete already-migrated world
changes nothing and succeeds. -/
theorem C8_migration_noop_when_migrated_witness :
    (migration_main noFaults exMigratedWorld).1 = .success ∧
    (migration_main noFaults exMigratedWorld).2.store =
      exMigratedWorld.store ∧
    (migration_main noFaults exMigratedWorld).2.trace =
      exMigratedWorld.trace :=
  C8_migration_noop_when_migrated noFaults exMigratedWorld exMigratedCM rfl
    rfl rfl

/-! ## C2 — rollback after a staging-creation failure -/

theorem lookupName_append_left (k : List Char) (v : ConfigMap)
    (l1 l2 : MigStore) (h : lookupName k l1 = some v) :
    lookupName k (l1 ++ l2) = some v := by
  induction l1 with
  | nil => simp [lookupName] at h
  | cons a rest ih =>
      by_cases ha : a.1 = k
      · simp only [lookupName, ha, if_true] at h
        simpa [lookupName, ha] using h
      · simp only [lookupName, ha, if_false] at h
        simpa [lookupName, ha] using ih h

theorem lookupName_append_none (k : List Char) (l1 l2 : MigStore)
    (h : lookupName k l1 = none) :
    lookupName k (l1 ++ l2) = lookupName k l2 := by
  induction l1 with
  | nil => simp [lookupName]
  | cons a rest ih =>
      by_cases ha : a.1 = k
      · simp [lookupName, ha] at h
      · simp only [lookupName, ha, if_false] at h
        simpa [lookupName, ha] using ih h

theorem lookupName_filter_keep (k : List Char)
    (p : List Char × ConfigMap → Bool) (l : MigStore)
    (h : ∀ c ∈ l, c.1 = k → p c = true) :
    lookupName k (l.filter p) = lookupName k l := by
  induction l with
  | nil => simp
  | cons a rest ih =>
      have ih' := ih (fun c hc hk => h c (List.mem_cons_of_mem a hc) hk)
      by_cases ha : a.1 = k
      · have hpa : p a = true := h a (List.mem_cons_self a rest) ha
        rw [List.filter_cons, if_pos hpa]
        simp [lookupName, ha]
      · by_cases hp : p a = true
        · rw [List.filter_cons, if_pos hp]
          simp only [lookupName]
          rw [if_neg ha, if_neg ha]
          exact ih'
        · rw [List.filter_cons, if_neg hp]
          rw [show lookupName k (a :: rest) = lookupName k rest from by
            simp [lookupName, ha]]
          exact ih'

theorem lookupName_filter_none (k : List Char)
    (p : List Char × ConfigMap → Bool) (l : MigStore)
    (h : ∀ c ∈ l, c.1 = k → p c = false) :
    lookupName k (l.filter p) = none := by
  induction l with
  | nil => simp [lookupName]
  | cons a rest ih =>
      have ih' := ih (fun c hc hk => h c (List.mem_cons_of_mem a hc) hk)
      by_cases ha : a.1 = k
      · have hpa : p a = false := h a (List.mem_cons_self a rest) ha
        rw [List.filter_cons, if_neg (by simp [hpa])]
        exact ih'
      · by_cases hp : p a = true
        · rw [List.filter_cons, if_pos hp]
          simp only [lookupName]
          rw [if_neg ha]
          exact ih'
        · rw [List.filter_cons, if_neg hp]
          exact ih'

theorem filter_ne_of_lookupName_none (k : List Char) (l : MigStore)
    (h : lookupName k l = none) :
    l.filter (fun c => c.1 ≠ k) = l := by
  induction l with
  | nil => simp
  | cons a rest ih =>
      by_cases ha : a.1 = k
      · simp [lookupName, ha] at h
      · have h' : lookupName k rest = none := by
          simpa [lookupName, ha] using h
        rw [List.filter_cons, if_pos (by simp [ha]), ih h']

theorem delete_config_map_store (F : MigFaults) (nm : List Char)
    (w : MigWorld) (h : F.deleteErr nm = false) :
    (delete_config_map F nm w).2.store =
      w.store.filter (fun c => c.1 ≠ nm) := by
  unfold delete_config_map
  cases hl : lookupName nm w.store with
  | none =>
      have := filter_ne_of_lookupName_none nm w.store hl
      simp only [ne_eq, decide_not] at this
      simp [h, hl, this]
  | some cm => simp [h, hl]

theorem foldDelete_store (F : MigFaults)
    (hdel : ∀ nm, F.deleteErr nm = false) :
    ∀ (names : List (List Char)) (w : MigWorld),
      (names.foldl (fun wAcc name => (delete_config_map F name wAcc).2)
        w).store = w.store.filter (fun c => decide (c.1 ∉ names)) := by
  intro names
  induction names with
  | nil =>
      intro w
      simp
  | cons nm rest ih =>
      intro w
      rw [List.foldl_cons, ih]
      rw [delete_config_map_store F nm w (hdel nm)]
      rw [List.filter_filter]
      apply List.filter_congr
      intro a _
      by_cases h1 : a.1 = nm <;> by_cases h2 : a.1 ∈ rest <;>
        simp [h1, h2]

theorem matchesCmPattern_all (l : List Char)
    (h : matchesCmPattern l = true) : l.all isNameChar = true := by
  induction l with
  | nil => simp [matchesCmPattern] at h
  | cons c rest ih =>
      cases rest with
      | nil =>
          simp only [matchesCmPattern] at h
          simp [isNameChar, h]
      | cons d rest' =>
          rw [matchesCmPattern_cons c (d :: rest') (by simp)] at h
          have h1 := (Bool.and_eq_true_iff.mp h).1
          have h2 := ih (Bool.and_eq_true_iff.mp h).2
          simp [h1, h2]

theorem is_product_config_map_append (s : List Char) (hne : s ≠ [])
    (hall : s.all isNameChar = true) :
    is_product_config_map ("cray-product-catalog-".toList ++ s) = true := by
  have hie : s.isEmpty = false := by
    cases s with
    | nil => exact absurd rfl hne
    | cons a l => rfl
  unfold is_product_config_map
  simp only []
  rw [List.take_left, List.drop_left]
  simp [hie, hall]

theorem is_product_config_map_of_format (p : List Char)
    (h : format_product_cm_name PRODUCT_CATALOG_CONFIG_MAP_NAME p ≠ []) :
    is_product_config_map
      (format_product_cm_name PRODUCT_CATALOG_CONFIG_MAP_NAME p) = true := by
  unfold format_product_cm_name at h ⊢
  obtain ⟨heq, _, hpat⟩ := formatCheck_nonempty _ h
  rw [heq]
  have hsplit : PRODUCT_CATALOG_CONFIG_MAP_NAME ++ ['-'] ++
      (p.map (fun c => if c = '_' then '-' else c)).map Char.toLower =
      "cray-product-catalog-".toList ++
        (p.map (fun c => if c = '_' then '-' else c)).map Char.toLower := by
    rw [List.append_assoc]
    rfl
  rw [hsplit] at hpat ⊢
  set s := (p.map (fun c => if c = '_' then '-' else c)).map Char.toLower
    with hs
  have hne : s ≠ [] := by
    intro h0
    rw [h0] at hpat
    simp only [List.append_nil] at hpat
    exact absurd hpat (by decide)
  have hall : s.all isNameChar = true := by
    have := matchesCmPattern_all _ hpat
    rw [List.all_append] at this
    exact (Bool.and_eq_true_iff.mp this).2
  exact is_product_config_map_append s hne hall

theorem selectedOf_pattern (st : MigStore) (nm : List Char)
    (h : nm ∈ selectedOf st) : is_product_config_map nm = true :=
  (List.mem_filter.mp h).2

theorem mem_selectedOf (st : MigStore) (nm : List Char) (cm : ConfigMap)
    (hmem : (nm, cm) ∈ st) (hlab : CRAY_DATA_CATALOG_LABEL ∈ cm.labels)
    (hpat : is_product_config_map nm = true) : nm ∈ selectedOf st := by
  unfold selectedOf
  refine List.mem_filter.mpr ⟨?_, hpat⟩
  exact List.mem_map.mpr ⟨(nm, cm),
    List.mem_filter.mpr ⟨hmem, by simpa using hlab⟩, rfl⟩

theorem rollback_store (F : MigFaults) (w : MigWorld)
    (hlist : F.listErr w.nList = false)
    (hdel : ∀ nm, F.deleteErr nm = false) :
    (rollback F w).store =
      w.store.filter (fun c => decide (c.1 ∉ selectedOf w.store)) := by
  unfold rollback list_config_map_names
  simp only []
  rw [if_neg (by simp [hlist])]
  simp only []
  rw [foldDelete_store F hdel]
  rfl

theorem create_product_config_maps_ok (F : MigFaults) :
    ∀ (lst : List (List (String × SVal))) (w : MigWorld),
      (∀ pdta ∈ lst, F.createErr (cmNameOf pdta) = false) →
      (∀ pdta ∈ lst, cmNameOf pdta ≠ []) →
      (∀ pdta ∈ lst, lookupName (cmNameOf pdta) w.store = none) →
      (lst.map cmNameOf).Nodup →
      (create_product_config_maps F lst w).1 = true ∧
      ∃ ext : MigStore,
        (create_product_config_maps F lst w).2.store = w.store ++ ext ∧
        ext.map (fun c => c.1) = lst.map cmNameOf ∧
        ∀ c ∈ ext, c.2.labels = PRODUCT_CATALOG_CONFIG_MAP_LABEL := by
  intro lst
  induction lst with
  | nil =>
      intro w _ _ _ _
      exact ⟨rfl, [], by simp [create_product_config_maps], rfl,
        fun c hc => by cases hc⟩
  | cons pdta rest ih =>
      intro w hcr hne hfresh hnd
      have hcr0 := hcr pdta (List.mem_cons_self pdta rest)
      have hne0 := hne pdta (List.mem_cons_self pdta rest)
      have hfresh0 := hfresh pdta (List.mem_cons_self pdta rest)
      have hie : (cmNameOf pdta).isEmpty = false := by
        cases hc : cmNameOf pdta with
        | nil => exact absurd hc hne0
        | cons a l => rfl
      have hcreate : create_config_map F (cmNameOf pdta) pdta
          PRODUCT_CATALOG_CONFIG_MAP_LABEL w =
          (true, { w with
            nCreate := w.nCreate + 1,
            store := w.store ++
              [(cmNameOf pdta,
                ⟨PRODUCT_CATALOG_CONFIG_MAP_LABEL, pdta, w.nextRV⟩)],
            nextRV := w.nextRV + 1,
            trace := .evCreate (cmNameOf pdta) :: w.trace }) := by
        unfold create_config_map
        rw [if_neg (by simp [hcr0]), if_neg (by simp [hie]),
          if_neg (by simp [hfresh0])]
      rw [create_product_config_maps]
      simp only [hcreate, if_true]
      set w1 : MigWorld := { w with
        nCreate := w.nCreate + 1,
        store := w.store ++
          [(cmNameOf pdta,
            ⟨PRODUCT_CATALOG_CONFIG_MAP_LABEL, pdta, w.nextRV⟩)],
        nextRV := w.nextRV + 1,
        trace := .evCreate (cmNameOf pdta) :: w.trace } with hw1
      have hnd' : (rest.map cmNameOf).Nodup := (List.nodup_cons.mp hnd).2
      have hnotmem : cmNameOf pdta ∉ rest.map cmNameOf :=
        (List.nodup_cons.mp hnd).1
      have hfresh' : ∀ q ∈ rest, lookupName (cmNameOf q) w1.store = none := by
        intro q hq
        have h1 : lookupName (cmNameOf q) w.store = none :=
          hfresh q (List.mem_cons_of_mem pdta hq)
        have h2 : cmNameOf q ≠ cmNameOf pdta := by
          intro h0
          exact hnotmem (h0 ▸ List.mem_map_of_mem cmNameOf hq)
        have h3 : cmNameOf pdta ≠ cmNameOf q := Ne.symm h2
        rw [hw1]
        simp only []
        rw [lookupName_append_none _ _ _ h1]
        simp [lookupName, h3]
      obtain ⟨hok, ext, hstore, hnames, hlabels⟩ := ih w1
        (fun q hq => hcr q (List.mem_cons_of_mem pdta hq))
        (fun q hq => hne q (List.mem_cons_of_mem pdta hq))
        hfresh' hnd'
      refine ⟨hok,
        (cmNameOf pdta,
          ⟨PRODUCT_CATALOG_CONFIG_MAP_LABEL, pdta, w.nextRV⟩) :: ext,
        ?_, ?_, ?_⟩
      · rw [hstore, hw1]
        simp
      · simp [hnames]
      · intro c hc
        rcases List.mem_cons.mp hc with h0 | h0
        · rw [h0]
        · exact hlabels c h0

theorem create_product_config_maps_fail (F : MigFaults) :
    ∀ (pre : List (List (String × SVal))) (bad : List (String × SVal))
      (rest : List (List (String × SVal))) (w : MigWorld),
      (∀ pdta ∈ pre, F.createErr (cmNameOf pdta) = false) →
      (∀ pdta ∈ pre, cmNameOf pdta ≠ []) →
      (∀ pdta ∈ pre, lookupName (cmNameOf pdta) w.store = none) →
      (pre.map cmNameOf).Nodup →
      F.createErr (cmNameOf bad) = true →
      (create_product_config_maps F (pre ++ bad :: rest) w).1 = false ∧
      ∃ ext : MigStore,
        (create_product_config_maps F (pre ++ bad :: rest) w).2.store =
          w.store ++ ext ∧
        ext.map (fun c => c.1) = pre.map cmNameOf ∧
        ∀ c ∈ ext, c.2.labels = PRODUCT_CATALOG_CONFIG_MAP_LABEL := by
  intro pre
  induction pre with
  | nil =>
      intro bad rest w _ _ _ _ hbad
      have hbadcreate : create_config_map F (cmNameOf bad) bad
          PRODUCT_CATALOG_CONFIG_MAP_LABEL w =
          (false, { w with nCreate := w.nCreate + 1 }) := by
        unfold create_config_map
        rw [if_pos hbad]
      rw [List.nil_append, create_product_config_maps]
      simp only [hbadcreate]
      rw [if_neg (by simp)]
      exact ⟨rfl, [], by simp, rfl, fun c hc => by cases hc⟩
  | cons pdta pre' ih =>
      intro bad rest w hcr hne hfresh hnd hbad
      have hcr0 := hcr pdta (List.mem_cons_self pdta pre')
      have hne0 := hne pdta (List.mem_cons_self pdta pre')
      have hfresh0 := hfresh pdta (List.mem_cons_self pdta pre')
      have hie : (cmNameOf pdta).isEmpty = false := by
        cases hc : cmNameOf pdta with
        | nil => exact absurd hc hne0
        | cons a l => rfl
      have hcreate : create_config_map F (cmNameOf pdta) pdta
          PRODUCT_CATALOG_CONFIG_MAP_LABEL w =
          (true, { w with
            nCreate := w.nCreate + 1,
            store := w.store ++
              [(cmNameOf pdta,
                ⟨PRODUCT_CATALOG_CONFIG_MAP_LABEL, pdta, w.nextRV⟩)],
            nextRV := w.nextRV + 1,
            trace := .evCreate (cmNameOf pdta) :: w.trace }) := by
        unfold create_config_map
        rw [if_neg (by simp [hcr0]), if_neg (by simp [hie]),
          if_neg (by simp [hfresh0])]
      rw [List.cons_append, create_product_config_maps]
      simp only [hcreate, if_true]
      set w1 : MigWorld := { w with
        nCreate := w.nCreate + 1,
        store := w.store ++
          [(cmNameOf pdta,
            ⟨PRODUCT_CATALOG_CONFIG_MAP_LABEL, pdta, w.nextRV⟩)],
        nextRV := w.nextRV + 1,
        trace := .evCreate (cmNameOf pdta) :: w.trace } with hw1
      have hnd' : (pre'.map cmNameOf).Nodup := (List.nodup_cons.mp hnd).2
      have hnotmem : cmNameOf pdta ∉ pre'.map cmNameOf :=
        (List.nodup_cons.mp hnd).1
      have hfresh' : ∀ q ∈ pre', lookupName (cmNameOf q) w1.store = none := by
        intro q hq
        have h1 : lookupName (cmNameOf q) w.store = none :=
          hfresh q (List.mem_cons_of_mem pdta hq)
        have h2 : cmNameOf q ≠ cmNameOf pdta := by
          intro h0
          exact hnotmem (h0 ▸ List.mem_map_of_mem cmNameOf hq)
        have h3 : cmNameOf pdta ≠ cmNameOf q := Ne.symm h2
        rw [hw1]
        simp only []
        rw [lookupName_append_none _ _ _ h1]
        simp [lookupName, h3]
      obtain ⟨hfail, ext, hstore, hnames, hlabels⟩ := ih bad rest w1
        (fun q hq => hcr q (List.mem_cons_of_mem pdta hq))
        (fun q hq => hne q (List.mem_cons_of_mem pdta hq))
        hfresh' hnd' hbad
      refine ⟨hfail,
        (cmNameOf pdta,
          ⟨PRODUCT_CATALOG_CONFIG_MAP_LABEL, pdta, w.nextRV⟩) :: ext,
        ?_, ?_, ?_⟩
      · rw [hstore, hw1]
        simp
      · simp [hnames]
      · intro c hc
        rcases List.mem_cons.mp hc with h0 | h0
        · rw [h0]
        · exact hlabels c h0

theorem rollback_cleans (F : MigFaults) (w4 : MigWorld) (st0 ext : MigStore)
    (names : List (List Char)) (cmMain : ConfigMap)
    (hstore : w4.store = st0 ++ ext)
    (hlist : F.listErr w4.nList = false)
    (hdel : ∀ nm, F.deleteErr nm = false)
    (hnames : ext.map (fun c => c.1) = names)
    (hlabels : ∀ c ∈ ext, c.2.labels = PRODUCT_CATALOG_CONFIG_MAP_LABEL)
    (hpat : ∀ nm ∈ names, is_product_config_map nm = true)
    (hmain : lookupName PRODUCT_CATALOG_CONFIG_MAP_NAME st0 = some cmMain) :
    (∀ nm ∈ names, lookupName nm (rollback F w4).store = none) ∧
    lookupName PRODUCT_CATALOG_CONFIG_MAP_NAME (rollback F w4).store =
      some cmMain := by
  rw [rollback_store F w4 hlist hdel]
  constructor
  · intro nm hnm
    have hmm : nm ∈ ext.map (fun c => c.1) := by
      rw [hnames]
      exact hnm
    obtain ⟨c, hc, hcfst⟩ := List.mem_map.mp hmm
    have hcmem : c ∈ w4.store := by
      rw [hstore]
      exact List.mem_append_right _ hc
    have hclab : CRAY_DATA_CATALOG_LABEL ∈ c.2.labels := by
      rw [hlabels c hc]
      simp [CRAY_DATA_CATALOG_LABEL, PRODUCT_CATALOG_CONFIG_MAP_LABEL]
    have hsel : nm ∈ selectedOf w4.store := by
      refine mem_selectedOf w4.store nm c.2 ?_ hclab (hpat nm hnm)
      rw [← hcfst]
      exact hcmem
    exact lookupName_filter_none _ _ _ (fun c' _ hk => by simp [hk, hsel])
  · have hmainpat : is_product_config_map PRODUCT_CATALOG_CONFIG_MAP_NAME =
        false := by decide
    have hnotsel : PRODUCT_CATALOG_CONFIG_MAP_NAME ∉ selectedOf w4.store := by
      intro h0
      rw [selectedOf_pattern w4.store _ h0] at hmainpat
      cases hmainpat
    rw [lookupName_filter_keep _ _ _ (fun c' _ hk => by simp [hk, hnotsel])]
    rw [hstore]
    exact lookupName_append_left _ _ _ _ hmain

theorem read_config_map_ok (F : MigFaults) (w : MigWorld) (nm : List Char)
    (cm : ConfigMap) (hne : nm.isEmpty = false)
    (hre : F.readErr w.nRead = false) (hrv : F.rvAt w.nRead = none)
    (hl : lookupName nm w.store = some cm) :
    read_config_map F nm w = (some cm, { w with nRead := w.nRead + 1 }) := by
  unfold read_config_map
  rw [if_neg (by simp [hne])]
  simp only []
  rw [if_neg (by simp [hre]), hl]
  simp only [hrv, Option.getD]

/-- Scenario one of the migration's rollback obligation: the only injected
fault is the failure of the staging main ConfigMap's creation
(`CreateStagingMain`), after every product ConfigMap was created.  The run
reports failure, the created product ConfigMaps are deleted again, and the
combined main ConfigMap is byte-for-byte unchanged. -/
theorem migrationTempCreateFailRollback
    (w : MigWorld) (cmMain : ConfigMap)
    (mainData : List (String × SVal))
    (prodList : List (List (String × SVal))) (F : MigFaults)
    (hFread : ∀ i, F.readErr i = false)
    (hFrv : ∀ i, F.rvAt i = none)
    (hFlist : ∀ i, F.listErr i = false)
    (hFdel : ∀ nm, F.deleteErr nm = false)
    (hFtmp : F.createErr CONFIG_MAP_TEMP = true)
    (hmain : lookupName PRODUCT_CATALOG_CONFIG_MAP_NAME w.store =
      some cmMain)
    (hnotmig : lookupKV PRODUCT_CATALOG_CONFIG_MAP_LABEL_KEY cmMain.labels ≠
      some "cray-product-catalog")
    (hrv : cmMain.resourceVersion ≠ 0)
    (hdata : cmMain.data ≠ [])
    (hmig : migrate_config_map_data cmMain.data = some (mainData, prodList))
    (hcrOK : ∀ pdta ∈ prodList, F.createErr (cmNameOf pdta) = false)
    (hvalid : ∀ pdta ∈ prodList, cmNameOf pdta ≠ [])
    (hfresh : ∀ pdta ∈ prodList, lookupName (cmNameOf pdta) w.store = none)
    (hnd : (prodList.map cmNameOf).Nodup) :
    (migration_main F w).1 = .sysExit ∧
    (∀ pdta ∈ prodList,
      lookupName (cmNameOf pdta) (migration_main F w).2.store = none) ∧
    lookupName PRODUCT_CATALOG_CONFIG_MAP_NAME (migration_main F w).2.store =
      some cmMain := by
  have hnmne : PRODUCT_CATALOG_CONFIG_MAP_NAME.isEmpty = false := by decide
  have hbeq : (lookupKV PRODUCT_CATALOG_CONFIG_MAP_LABEL_KEY cmMain.labels ==
      some "cray-product-catalog") = false := by
    simpa using hnotmig
  have hdata' : cmMain.data.isEmpty = false := by
    cases hd : cmMain.data with
    | nil => exact absurd hd hdata
    | cons a l => rfl
  -- the worlds along the run
  set w1 : MigWorld := { w with nRead := w.nRead + 1 } with hw1
  set w2 : MigWorld := { w1 with nRead := w1.nRead + 1 } with hw2
  have hread1 : read_config_map F PRODUCT_CATALOG_CONFIG_MAP_NAME w =
      (some cmMain, w1) :=
    read_config_map_ok F w _ cmMain hnmne (hFread _) (hFrv _) hmain
  have hism : is_migrated F w = (false, w1) := by
    unfold is_migrated
    rw [hread1]
    simp [hbeq]
  have hread2 : read_config_map F PRODUCT_CATALOG_CONFIG_MAP_NAME w1 =
      (some cmMain, w2) :=
    read_config_map_ok F w1 _ cmMain hnmne (hFread _) (hFrv _) hmain
  obtain ⟨hok, ext, hstore, hnamesE, hlabelsE⟩ :=
    create_product_config_maps_ok F prodList w2 hcrOK hvalid hfresh hnd
  set w3 : MigWorld := (create_product_config_maps F prodList w2).2 with hw3
  have htemp : create_temp_config_map F mainData w3 =
      (false, { w3 with nCreate := w3.nCreate + 1 }) := by
    unfold create_temp_config_map create_config_map
    rw [if_pos hFtmp]
  set w4 : MigWorld := { w3 with nCreate := w3.nCreate + 1 } with hw4
  have hrun : migration_main F w = (.sysExit, rollback F w4) := by
    unfold migration_main
    rw [hism]
    simp only [Bool.false_eq_true, if_false]
    rw [migrationLoop.eq_def]
    simp only []
    rw [hread2]
    simp only []
    rw [if_neg hrv, if_neg (by simp [hdata']), hmig]
    simp only []
    rw [hok]
    simp only [not_true, if_false]
    rw [htemp]
    simp only []
    rw [if_pos (by simp)]
  have hw4store : w4.store = w.store ++ ext := by
    rw [hw4]
    simpa using hstore
  have hrollstore : (rollback F w4).store =
      w4.store.filter (fun c => decide (c.1 ∉ selectedOf w4.store)) :=
    rollback_store F w4 (hFlist _) hFdel
  have hmainpat : is_product_config_map PRODUCT_CATALOG_CONFIG_MAP_NAME =
      false := by decide
  refine ⟨by rw [hrun], fun pdta hp => ?_, ?_⟩
  · -- every created product ConfigMap is gone again
    rw [hrun]
    simp only []
    rw [hrollstore]
    -- the created entry for this product
    have hmm : cmNameOf pdta ∈ ext.map (fun c => c.1) := by
      rw [hnamesE]
      exact List.mem_map_of_mem cmNameOf hp
    obtain ⟨c, hc, hcfst⟩ := List.mem_map.mp hmm
    have hcmem : c ∈ w4.store := by
      rw [hw4store]
      exact List.mem_append_right _ hc
    have hclab : CRAY_DATA_CATALOG_LABEL ∈ c.2.labels := by
      rw [hlabelsE c hc]
      simp [CRAY_DATA_CATALOG_LABEL, PRODUCT_CATALOG_CONFIG_MAP_LABEL]
    have hcpat : is_product_config_map (cmNameOf pdta) = true := by
      unfold cmNameOf
      exact is_product_config_map_of_format _ (by
        have := hvalid pdta hp
        unfold cmNameOf at this
        exact this)
    have hsel : cmNameOf pdta ∈ selectedOf w4.store := by
      refine mem_selectedOf w4.store (cmNameOf pdta) c.2 ?_ hclab hcpat
      rw [← hcfst]
      exact hcmem
    exact lookupName_filter_none _ _ _ (fun c' _ hk => by simp [hk, hsel])
  · -- the combined main ConfigMap is untouched
    rw [hrun]
    simp only []
    rw [hrollstore]
    have hnotsel : PRODUCT_CATALOG_CONFIG_MAP_NAME ∉ selectedOf w4.store := by
      intro h0
      rw [selectedOf_pattern w4.store _ h0] at hmainpat
      cases hmainpat
    rw [lookupName_filter_keep _ _ _ (fun c' _ hk => by simp [hk, hnotsel])]
    rw [hw4store]
    exact lookupName_append_left _ _ _ _ hmain


/-- Scenario two of the migration's rollback obligation: the creation of
one product's ConfigMap fails (`CreateProductObjects`, the rollback call at
`migration/main.py` lines 106-109), after the ConfigMaps of the products
before it were created.  The run reports failure, every product ConfigMap
that had been created is deleted again, and the combined main ConfigMap is
byte-for-byte unchanged. -/
theorem migrationProductCreateFailRollback
    (w : MigWorld) (cmMain : ConfigMap)
    (mainData : List (String × SVal))
    (pre : List (List (String × SVal))) (bad : List (String × SVal))
    (rest : List (List (String × SVal))) (F : MigFaults)
    (hFread : ∀ i, F.readErr i = false)
    (hFrv : ∀ i, F.rvAt i = none)
    (hFlist : ∀ i, F.listErr i = false)
    (hFdel : ∀ nm, F.deleteErr nm = false)
    (hmain : lookupName PRODUCT_CATALOG_CONFIG_MAP_NAME w.store =
      some cmMain)
    (hnotmig : lookupKV PRODUCT_CATALOG_CONFIG_MAP_LABEL_KEY cmMain.labels ≠
      some "cray-product-catalog")
    (hrv : cmMain.resourceVersion ≠ 0)
    (hdata : cmMain.data ≠ [])
    (hmig : migrate_config_map_data cmMain.data =
      some (mainData, pre ++ bad :: rest))
    (hcrOK : ∀ pdta ∈ pre, F.createErr (cmNameOf pdta) = false)
    (hvalid : ∀ pdta ∈ pre, cmNameOf pdta ≠ [])
    (hfresh : ∀ pdta ∈ pre, lookupName (cmNameOf pdta) w.store = none)
    (hnd : (pre.map cmNameOf).Nodup)
    (hbad : F.createErr (cmNameOf bad) = true) :
    (migration_main F w).1 = .sysExit ∧
    (∀ pdta ∈ pre,
      lookupName (cmNameOf pdta) (migration_main F w).2.store = none) ∧
    lookupName PRODUCT_CATALOG_CONFIG_MAP_NAME (migration_main F w).2.store =
      some cmMain := by
  have hnmne : PRODUCT_CATALOG_CONFIG_MAP_NAME.isEmpty = false := by decide
  have hbeq : (lookupKV PRODUCT_CATALOG_CONFIG_MAP_LABEL_KEY cmMain.labels ==
      some "cray-product-catalog") = false := by
    simpa using hnotmig
  have hdata' : cmMain.data.isEmpty = false := by
    cases hd : cmMain.data with
    | nil => exact absurd hd hdata
    | cons a l => rfl
  set w1 : MigWorld := { w with nRead := w.nRead + 1 } with hw1
  set w2 : MigWorld := { w1 with nRead := w1.nRead + 1 } with hw2
  have hread1 : read_config_map F PRODUCT_CATALOG_CONFIG_MAP_NAME w =
      (some cmMain, w1) :=
    read_config_map_ok F w _ cmMain hnmne (hFread _) (hFrv _) hmain
  have hism : is_migrated F w = (false, w1) := by
    unfold is_migrated
    rw [hread1]
    simp [hbeq]
  have hread2 : read_config_map F PRODUCT_CATALOG_CONFIG_MAP_NAME w1 =
      (some cmMain, w2) :=
    read_config_map_ok F w1 _ cmMain hnmne (hFread _) (hFrv _) hmain
  obtain ⟨hfail, ext, hstore, hnamesE, hlabelsE⟩ :=
    create_product_config_maps_fail F pre bad rest w2 hcrOK hvalid hfresh
      hnd hbad
  set CP : MigWorld :=
    (create_product_config_maps F (pre ++ bad :: rest) w2).2 with hCP
  have hrun : migration_main F w = (.sysExit, rollback F CP) := by
    unfold migration_main
    rw [hism]
    simp only [Bool.false_eq_true, if_false]
    rw [migrationLoop.eq_def]
    simp only []
    rw [hread2]
    simp only []
    rw [if_neg hrv, if_neg (by simp [hdata']), hmig]
    simp only []
    rw [hfail]
    rw [if_pos (by simp)]
  have hCPstore : CP.store = w.store ++ ext := by
    rw [hCP]
    simpa using hstore
  have hpatAll : ∀ nm ∈ pre.map cmNameOf,
      is_product_config_map nm = true := by
    intro nm hnm
    obtain ⟨pdta, hp, hrfl⟩ := List.mem_map.mp hnm
    rw [← hrfl]
    unfold cmNameOf
    refine is_product_config_map_of_format _ ?_
    have := hvalid pdta hp
    unfold cmNameOf at this
    exact this
  obtain ⟨hgone, hmainok⟩ := rollback_cleans F CP w.store ext
    (pre.map cmNameOf) cmMain hCPstore (hFlist _) hFdel hnamesE hlabelsE
    hpatAll hmain
  refine ⟨by rw [hrun], fun pdta hp => ?_, by rw [hrun]; exact hmainok⟩
  rw [hrun]
  exact hgone _ (List.mem_map_of_mem cmNameOf hp)

/-- C2: if the migration fails after it has created objects — either a
product ConfigMap creation failing (`CreateProductObjects`) or the staging
main ConfigMap creation failing (`CreateStagingMain`) — then after
`migration_main` reports failure (`SystemExit`), every product ConfigMap the
migration created (carrying the catalog label and matching the
base-name-dash-suffix pattern) has been deleted, and the original combined
main ConfigMap is neither deleted nor modified — it is byte-for-byte
unchanged. -/
theorem C2_creation_failure_rolls_back :
    (∀ (w : MigWorld) (cmMain : ConfigMap)
       (mainData : List (String × SVal))
       (prodList : List (List (String × SVal))) (F : MigFaults),
      (∀ i, F.readErr i = false) →
      (∀ i, F.rvAt i = none) →
      (∀ i, F.listErr i = false) →
      (∀ nm, F.deleteErr nm = false) →
      F.createErr CONFIG_MAP_TEMP = true →
      lookupName PRODUCT_CATALOG_CONFIG_MAP_NAME w.store = some cmMain →
      lookupKV PRODUCT_CATALOG_CONFIG_MAP_LABEL_KEY cmMain.labels ≠
        some "cray-product-catalog" →
      cmMain.resourceVersion ≠ 0 →
      cmMain.data ≠ [] →
      migrate_config_map_data cmMain.data = some (mainData, prodList) →
      (∀ pdta ∈ prodList, F.createErr (cmNameOf pdta) = false) →
      (∀ pdta ∈ prodList, cmNameOf pdta ≠ []) →
      (∀ pdta ∈ prodList, lookupName (cmNameOf pdta) w.store = none) →
      (prodList.map cmNameOf).Nodup →
      (migration_main F w).1 = .sysExit ∧
      (∀ pdta ∈ prodList,
        lookupName (cmNameOf pdta) (migration_main F w).2.store = none) ∧
      lookupName PRODUCT_CATALOG_CONFIG_MAP_NAME
        (migration_main F w).2.store = some cmMain) ∧
    (∀ (w : MigWorld) (cmMain : ConfigMap)
       (mainData : List (String × SVal))
       (pre : List (List (String × SVal))) (bad : List (String × SVal))
       (rest : List (List (String × SVal))) (F : MigFaults),
      (∀ i, F.readErr i = false) →
      (∀ i, F.rvAt i = none) →
      (∀ i, F.listErr i = false) →
      (∀ nm, F.deleteErr nm = false) →
      lookupName PRODUCT_CATALOG_CONFIG_MAP_NAME w.store = some cmMain →
      lookupKV PRODUCT_CATALOG_CONFIG_MAP_LABEL_KEY cmMain.labels ≠
        some "cray-product-catalog" →
      cmMain.resourceVersion ≠ 0 →
      cmMain.data ≠ [] →
      migrate_config_map_data cmMain.data =
        some (mainData, pre ++ bad :: rest) →
      (∀ pdta ∈ pre, F.createErr (cmNameOf pdta) = false) →
      (∀ pdta ∈ pre, cmNameOf pdta ≠ []) →
      (∀ pdta ∈ pre, lookupName (cmNameOf pdta) w.store = none) →
      (pre.map cmNameOf).Nodup →
      F.createErr (cmNameOf bad) = true →
      (migration_main F w).1 = .sysExit ∧
      (∀ pdta ∈ pre,
        lookupName (cmNameOf pdta) (migration_main F w).2.store = none) ∧
      lookupName PRODUCT_CATALOG_CONFIG_MAP_NAME
        (migration_main F w).2.store = some cmMain) :=
  ⟨fun w cmMain mainData prodList F h1 h2 h3 h4 h5 h6 h7 h8 h9 h10 h11 h12
      h13 h14 =>
    migrationTempCreateFailRollback w cmMain mainData prodList F h1 h2 h3 h4
      h5 h6 h7 h8 h9 h10 h11 h12 h13 h14,
   fun w cmMain mainData pre bad rest F h1 h2 h3 h4 h5 h6 h7 h8 h9 h10 h11
      h12 h13 h14 =>
    migrationProductCreateFailRollback w cmMain mainData pre bad rest F h1
      h2 h3 h4 h5 h6 h7 h8 h9 h10 h11 h12 h13 h14⟩

/-- C2 witness: both triggers exercised on the spec's concrete two-product
combined world.  Staging-creation failure: neither created product ConfigMap
survives and the main ConfigMap is unchanged.  Product-creation failure
(the second product's create fails): the first product's created ConfigMap
is deleted again and the main ConfigMap is unchanged. -/
theorem C2_creation_failure_rolls_back_witness :
    ((migration_main tempFailFaults exCombinedWorld).1 = .sysExit ∧
     (∀ pdta ∈ exProdList,
       lookupName (cmNameOf pdta)
         (migration_main tempFailFaults exCombinedWorld).2.store = none) ∧
     lookupName PRODUCT_CATALOG_CONFIG_MAP_NAME
         (migration_main tempFailFaults exCombinedWorld).2.store =
       some exCombinedCM) ∧
    ((migration_main prodFailFaults exCombinedWorld).1 = .sysExit ∧
     (∀ pdta ∈ [exProdList.headI],
       lookupName (cmNameOf pdta)
         (migration_main prodFailFaults exCombinedWorld).2.store = none) ∧
     lookupName PRODUCT_CATALOG_CONFIG_MAP_NAME
         (migration_main prodFailFaults exCombinedWorld).2.store =
       some exCombinedCM) :=
  ⟨C2_creation_failure_rolls_back.1 exCombinedWorld exCombinedCM exMainData
     exProdList tempFailFaults (fun _ => rfl) (fun _ => rfl) (fun _ => rfl)
     (fun _ => rfl) (by decide) (by decide) (by decide) (by decide)
     (by decide) (by decide) (by decide) (by decide) (by decide) (by decide),
   C2_creation_failure_rolls_back.2 exCombinedWorld exCombinedCM exMainData
     [exProdList.headI] (exProdList.getLast (by decide)) [] prodFailFaults
     (fun _ => rfl) (fun _ => rfl) (fun _ => rfl) (fun _ => rfl) (by decide)
     (by decide) (by decide) (by decide) (by decide) (by decide) (by decide)
     (by decide) (by decide) (by decide)⟩

/-! ## C3 — rename only after a successful token verification -/

theorem read_config_map_trace (F : MigFaults) (nm : List Char)
    (w : MigWorld) : (read_config_map F nm w).2.trace = w.trace := by
  unfold read_config_map
  by_cases h1 : nm.isEmpty = true
  · rw [if_pos h1]
  · rw [if_neg h1]
    simp only []
    by_cases h2 : F.readErr w.nRead = true
    · rw [if_pos h2]
    · rw [if_neg h2]
      cases lookupName nm w.store <;> rfl

theorem create_config_map_trace (F : MigFaults) (nm : List Char)
    (data : List (String × SVal)) (label : List (String × String))
    (w : MigWorld) :
    ∃ l, (create_config_map F nm data label w).2.trace = l ++ w.trace ∧
      MigEv.evRename ∉ l := by
  unfold create_config_map
  by_cases h1 : F.createErr nm = true
  · rw [if_pos h1]
    exact ⟨[], rfl, by simp⟩
  · rw [if_neg h1]
    by_cases h2 : nm.isEmpty = true
    · rw [if_pos h2]
      exact ⟨[], rfl, by simp⟩
    · rw [if_neg h2]
      by_cases h3 : (lookupName nm w.store).isSome = true
      · rw [if_pos h3]
        exact ⟨[], rfl, by simp⟩
      · rw [if_neg h3]
        exact ⟨[.evCreate nm], rfl, by simp⟩

theorem delete_config_map_trace (F : MigFaults) (nm : List Char)
    (w : MigWorld) :
    ∃ l, (delete_config_map F nm w).2.trace = l ++ w.trace ∧
      MigEv.evRename ∉ l := by
  unfold delete_config_map
  by_cases h1 : F.deleteErr nm = true
  · rw [if_pos h1]
    exact ⟨[], rfl, by simp⟩
  · rw [if_neg h1]
    by_cases h2 : (lookupName nm w.store).isSome = true
    · rw [if_pos h2]
      exact ⟨[.evDelete nm], rfl, by simp⟩
    · rw [if_neg h2]
      exact ⟨[], rfl, by simp⟩

theorem foldDelete_trace (F : MigFaults) :
    ∀ (names : List (List Char)) (w : MigWorld),
      ∃ l, (names.foldl (fun wAcc name => (delete_config_map F name wAcc).2)
        w).trace = l ++ w.trace ∧ MigEv.evRename ∉ l := by
  intro names
  induction names with
  | nil =>
      intro w
      exact ⟨[], rfl, by simp⟩
  | cons nm rest ih =>
      intro w
      rw [List.foldl_cons]
      obtain ⟨l1, h1, hn1⟩ := delete_config_map_trace F nm w
      obtain ⟨l2, h2, hn2⟩ := ih (delete_config_map F nm w).2
      refine ⟨l2 ++ l1, ?_, by simp [hn1, hn2]⟩
      rw [h2, h1, List.append_assoc]

theorem rollback_trace (F : MigFaults) (w : MigWorld) :
    ∃ l, (rollback F w).trace = l ++ w.trace ∧ MigEv.evRename ∉ l := by
  unfold rollback
  obtain ⟨l, hl, hn⟩ := foldDelete_trace F
    (((list_config_map_names F CRAY_DATA_CATALOG_LABEL
        { w with trace := .evRollback :: w.trace }).1).filter
      is_product_config_map)
    ((list_config_map_names F CRAY_DATA_CATALOG_LABEL
        { w with trace := .evRollback :: w.trace }).2)
  refine ⟨l ++ [.evRollback], ?_, by simp [hn]⟩
  rw [hl]
  have : ((list_config_map_names F CRAY_DATA_CATALOG_LABEL
      { w with trace := .evRollback :: w.trace }).2).trace =
      .evRollback :: w.trace := by
    unfold list_config_map_names
    by_cases h1 : F.listErr w.nList = true
    · rw [if_pos h1]
    · rw [if_neg h1]
  rw [this]
  simp

theorem create_product_config_maps_trace (F : MigFaults) :
    ∀ (lst : List (List (String × SVal))) (w : MigWorld),
      ∃ l, (create_product_config_maps F lst w).2.trace = l ++ w.trace ∧
        MigEv.evRename ∉ l := by
  intro lst
  induction lst with
  | nil =>
      intro w
      exact ⟨[], rfl, by simp⟩
  | cons pdta rest ih =>
      intro w
      rw [create_product_config_maps]
      obtain ⟨l1, h1, hn1⟩ := create_config_map_trace F (cmNameOf pdta) pdta
        PRODUCT_CATALOG_CONFIG_MAP_LABEL w
      by_cases hres : (create_config_map F (cmNameOf pdta) pdta
          PRODUCT_CATALOG_CONFIG_MAP_LABEL w).1 = true
      · rw [if_pos hres]
        obtain ⟨l2, h2, hn2⟩ := ih (create_config_map F (cmNameOf pdta) pdta
          PRODUCT_CATALOG_CONFIG_MAP_LABEL w).2
        refine ⟨l2 ++ l1, ?_, by simp [hn1, hn2]⟩
        rw [h2, h1, List.append_assoc]
      · rw [if_neg hres]
        exact ⟨l1, h1, hn1⟩

theorem renameDeleteRetry_trace (F : MigFaults) (nm : List Char) :
    ∀ (fuel : Nat) (w : MigWorld),
      ∃ l, (renameDeleteRetry F nm fuel w).trace = l ++ w.trace := by
  intro fuel
  induction fuel with
  | zero =>
      intro w
      exact ⟨[], rfl⟩
  | succ n ih =>
      intro w
      rw [renameDeleteRetry]
      obtain ⟨l1, h1, _⟩ := delete_config_map_trace F nm w
      by_cases hd : (delete_config_map F nm w).1 = true
      · rw [if_pos hd]
        exact ⟨l1, h1⟩
      · rw [if_neg hd]
        obtain ⟨l2, h2⟩ := ih (delete_config_map F nm w).2
        exact ⟨l2 ++ l1, by rw [h2, h1, List.append_assoc]⟩

theorem renameLoop_trace (F : MigFaults) (nmF nmT : List Char)
    (label : List (String × String)) :
    ∀ (fuel : Nat) (w : MigWorld),
      ∃ l, (renameLoop F nmF nmT label fuel w).2.trace = l ++ w.trace := by
  intro fuel
  induction fuel with
  | zero =>
      intro w
      exact ⟨[], rfl⟩
  | succ n ih =>
      intro w
      rw [renameLoop]
      have hr := read_config_map_trace F nmF w
      cases hread : (read_config_map F nmF w).1 with
      | none =>
          simp only []
          obtain ⟨l, hl⟩ := ih (read_config_map F nmF w).2
          exact ⟨l, by rw [hl, hr]⟩
      | some cm =>
          simp only []
          obtain ⟨l1, h1, _⟩ := create_config_map_trace F nmT cm.data label
            (read_config_map F nmF w).2
          by_cases hc : (create_config_map F nmT cm.data label
              (read_config_map F nmF w).2).1 = true
          · rw [if_pos hc]
            obtain ⟨l2, h2, _⟩ := delete_config_map_trace F nmF
              (create_config_map F nmT cm.data label
                (read_config_map F nmF w).2).2
            by_cases hd : (delete_config_map F nmF
                (create_config_map F nmT cm.data label
                  (read_config_map F nmF w).2).2).1 = true
            · rw [if_pos hd]
              exact ⟨l2 ++ l1, by
                rw [h2, h1, hr, List.append_assoc]⟩
            · rw [if_neg hd]
              obtain ⟨l3, h3⟩ := renameDeleteRetry_trace F nmF 10
                (delete_config_map F nmF
                  (create_config_map F nmT cm.data label
                    (read_config_map F nmF w).2).2).2
              exact ⟨l3 ++ (l2 ++ l1), by
                rw [h3, h2, h1, hr, List.append_assoc, List.append_assoc]⟩
          · rw [if_neg hc]
            obtain ⟨l2, h2⟩ := ih (create_config_map F nmT cm.data label
              (read_config_map F nmF w).2).2
            exact ⟨l2 ++ l1, by rw [h2, h1, hr, List.append_assoc]⟩

theorem rename_config_map_trace (F : MigFaults) (nmF nmT : List Char)
    (label : List (String × String)) (w : MigWorld) :
    ∃ l, (rename_config_map F nmF nmT label w).2.trace = l ++ w.trace := by
  unfold rename_config_map
  obtain ⟨l1, h1, _⟩ := delete_config_map_trace F nmT w
  by_cases hd : (delete_config_map F nmT w).1 = true
  · rw [if_pos hd]
    obtain ⟨l2, h2⟩ := renameLoop_trace F nmF nmT label 10
      (delete_config_map F nmT w).2
    exact ⟨l2 ++ l1, by rw [h2, h1, List.append_assoc]⟩
  · rw [if_neg hd]
    exact ⟨l1, h1⟩

theorem migrationRename_trace (F : MigFaults) (w : MigWorld) :
    ∃ l, (migrationRename F w).2.trace =
      l ++ (MigEv.evRename :: w.trace) := by
  unfold migrationRename
  obtain ⟨l1, h1⟩ := rename_config_map_trace F CONFIG_MAP_TEMP
    PRODUCT_CATALOG_CONFIG_MAP_NAME PRODUCT_CATALOG_CONFIG_MAP_LABEL
    { w with trace := .evRename :: w.trace }
  by_cases hr : (rename_config_map F CONFIG_MAP_TEMP
      PRODUCT_CATALOG_CONFIG_MAP_NAME PRODUCT_CATALOG_CONFIG_MAP_LABEL
      { w with trace := .evRename :: w.trace }).1 = true
  · rw [if_pos hr]
    exact ⟨l1, h1⟩
  · rw [if_neg hr]
    obtain ⟨l2, h2, _⟩ := rollback_trace F (rename_config_map F
      CONFIG_MAP_TEMP PRODUCT_CATALOG_CONFIG_MAP_NAME
      PRODUCT_CATALOG_CONFIG_MAP_LABEL
      { w with trace := .evRename :: w.trace }).2
    exact ⟨l2 ++ l1, by rw [h2, h1, List.append_assoc]⟩

theorem migrationLoop_renameLicensed (F : MigFaults) :
    ∀ (fuel : Nat) (w : MigWorld), MigEv.evRename ∉ w.trace →
      renameLicensed (migrationLoop F fuel w) := by
  intro fuel
  induction fuel with
  | zero =>
      intro w hnot hmem
      exact absurd hmem hnot
  | succ n ih =>
      intro w hnot
      rw [migrationLoop.eq_def]
      simp only []
      have hrtr := read_config_map_trace F PRODUCT_CATALOG_CONFIG_MAP_NAME w
      cases hread : (read_config_map F PRODUCT_CATALOG_CONFIG_MAP_NAME w).1
        with
      | none =>
          intro hmem
          rw [hrtr] at hmem
          exact absurd hmem hnot
      | some cm =>
          simp only []
          by_cases h0 : cm.resourceVersion = 0
          · rw [if_pos h0]
            intro hmem
            rw [hrtr] at hmem
            exact absurd hmem hnot
          · rw [if_neg h0]
            by_cases hdat : cm.data.isEmpty = true
            · rw [if_pos hdat]
              intro hmem
              rw [hrtr] at hmem
              exact absurd hmem hnot
            · rw [if_neg hdat]
              cases hmigr : migrate_config_map_data cm.data with
              | none =>
                  intro hmem
                  rw [hrtr] at hmem
                  exact absurd hmem hnot
              | some halves =>
                  simp only []
                  set CP := create_product_config_maps F halves.2
                    (read_config_map F PRODUCT_CATALOG_CONFIG_MAP_NAME w).2
                    with hCP
                  obtain ⟨lcp, hcp, hcpn⟩ :=
                    create_product_config_maps_trace F halves.2
                      (read_config_map F PRODUCT_CATALOG_CONFIG_MAP_NAME w).2
                  have hnotcp : MigEv.evRename ∉ CP.2.trace := by
                    rw [hCP, hcp, hrtr]
                    intro hx
                    rcases List.mem_append.mp hx with hx | hx
                    · exact hcpn hx
                    · exact hnot hx
                  by_cases hcp1 : CP.1 = true
                  · rw [if_neg (by simp [hcp1])]
                    simp only [create_temp_config_map]
                    set CT := create_config_map F CONFIG_MAP_TEMP halves.1
                      PRODUCT_CATALOG_CONFIG_MAP_LABEL CP.2 with hCT
                    obtain ⟨lct, hct, hctn⟩ := create_config_map_trace F
                      CONFIG_MAP_TEMP halves.1
                      PRODUCT_CATALOG_CONFIG_MAP_LABEL CP.2
                    have hnotct : MigEv.evRename ∉ CT.2.trace := by
                      rw [hCT, hct]
                      intro hx
                      rcases List.mem_append.mp hx with hx | hx
                      · exact hctn hx
                      · exact hnotcp hx
                    by_cases hct1 : CT.1 = true
                    · rw [if_neg (by simp [hct1])]
                      have hvtr := read_config_map_trace F
                        PRODUCT_CATALOG_CONFIG_MAP_NAME CT.2
                      cases hv : (read_config_map F
                          PRODUCT_CATALOG_CONFIG_MAP_NAME CT.2).1 with
                      | none =>
                          simp only []
                          apply ih
                          obtain ⟨lrb, hrb, hrbn⟩ := rollback_trace F
                            { (read_config_map F
                                PRODUCT_CATALOG_CONFIG_MAP_NAME CT.2).2 with
                              trace := .evVerify cm.resourceVersion 0 ::
                                (read_config_map F
                                  PRODUCT_CATALOG_CONFIG_MAP_NAME
                                  CT.2).2.trace }
                          rw [hrb]
                          intro hx
                          rcases List.mem_append.mp hx with hx | hx
                          · exact hrbn hx
                          · rcases List.mem_cons.mp hx with hx | hx
                            · cases hx
                            · rw [hvtr] at hx
                              exact hnotct hx
                      | some cm2 =>
                          simp only []
                          by_cases h20 : cm2.resourceVersion = 0
                          · rw [if_pos h20]
                            intro hmem
                            obtain ⟨lrb, hrb, hrbn⟩ := rollback_trace F
                              (read_config_map F
                                PRODUCT_CATALOG_CONFIG_MAP_NAME CT.2).2
                            rw [hrb] at hmem
                            rcases List.mem_append.mp hmem with hx | hx
                            · exact absurd hx hrbn
                            · rw [hvtr] at hx
                              exact absurd hx hnotct
                          · rw [if_neg h20]
                            by_cases hne2 : cm2.resourceVersion ≠
                                cm.resourceVersion
                            · rw [if_pos hne2]
                              apply ih
                              obtain ⟨lrb, hrb, hrbn⟩ := rollback_trace F
                                { (read_config_map F
                                    PRODUCT_CATALOG_CONFIG_MAP_NAME
                                    CT.2).2 with
                                  trace := .evVerify cm.resourceVersion
                                      cm2.resourceVersion ::
                                    (read_config_map F
                                      PRODUCT_CATALOG_CONFIG_MAP_NAME
                                      CT.2).2.trace }
                              rw [hrb]
                              intro hx
                              rcases List.mem_append.mp hx with hx | hx
                              · exact hrbn hx
                              · rcases List.mem_cons.mp hx with hx | hx
                                · cases hx
                                · rw [hvtr] at hx
                                  exact hnotct hx
                            · rw [if_neg hne2]
                              intro _hmem
                              have heq : cm2.resourceVersion =
                                  cm.resourceVersion := not_ne_iff.mp hne2
                              obtain ⟨l, hl⟩ := migrationRename_trace F
                                { (read_config_map F
                                    PRODUCT_CATALOG_CONFIG_MAP_NAME
                                    CT.2).2 with
                                  trace := .evVerify cm.resourceVersion
                                      cm2.resourceVersion ::
                                    (read_config_map F
                                      PRODUCT_CATALOG_CONFIG_MAP_NAME
                                      CT.2).2.trace }
                              refine ⟨cm.resourceVersion, h0, ?_⟩
                              rw [hl]
                              apply List.mem_append.mpr
                              right
                              apply List.mem_cons.mpr
                              right
                              simp only []
                              rw [heq]
                              exact List.mem_cons_self _ _
                    · rw [if_pos (by simp [hct1])]
                      intro hmem
                      obtain ⟨lrb, hrb, hrbn⟩ := rollback_trace F CT.2
                      rw [hrb] at hmem
                      rcases List.mem_append.mp hmem with hx | hx
                      · exact absurd hx hrbn
                      · exact absurd hx hnotct
                  · rw [if_pos (by simp [hcp1])]
                    intro hmem
                    obtain ⟨lrb, hrb, hrbn⟩ := rollback_trace F CP.2
                    rw [hrb] at hmem
                    rcases List.mem_append.mp hmem with hx | hx
                    · exact absurd hx hrbn
                    · exact absurd hx hnotcp

/-- C3: the staging ConfigMap is renamed into place only when the
verification re-read returns a (non-zero) resource version equal to the one
recorded before repartitioning — every run that invokes the rename step
carries a successful `evVerify rv rv` in its trace.  And concretely, when a
concurrent writer bumps the token before both attempts' verification reads,
the run performs two whole-process attempts (two rollbacks, the two
mismatching verifications recorded), never invokes the rename, and fails
with `SystemExit`. -/
theorem C3_rename_only_after_token_match :
    (∀ (F : MigFaults) (w : MigWorld), MigEv.evRename ∉ w.trace →
      renameLicensed (migration_main F w)) ∧
    (migration_main mismatchFaults exCombinedWorld).1 = .sysExit ∧
    MigEv.evRename ∉
      (migration_main mismatchFaults exCombinedWorld).2.trace ∧
    ((migration_main mismatchFaults exCombinedWorld).2.trace.count
      MigEv.evRollback) = 2 ∧
    MigEv.evVerify 5 999 ∈
      (migration_main mismatchFaults exCombinedWorld).2.trace ∧
    MigEv.evVerify 5 998 ∈
      (migration_main mismatchFaults exCombinedWorld).2.trace := by
  refine ⟨fun F w hnot => ?_, by decide, by decide, by decide, by decide,
    by decide⟩
  have htr : (is_migrated F w).2.trace = w.trace := by
    unfold is_migrated
    simp only []
    have h := read_config_map_trace F PRODUCT_CATALOG_CONFIG_MAP_NAME w
    cases hr : (read_config_map F PRODUCT_CATALOG_CONFIG_MAP_NAME w).1 with
    | none => exact h
    | some cm => exact h
  unfold migration_main
  by_cases hm : (is_migrated F w).1 = true
  · rw [if_pos hm]
    intro hmem
    exact absurd (htr ▸ hmem) hnot
  · rw [if_neg hm]
    exact migrationLoop_renameLicensed F 2 (is_migrated F w).2
      (by rw [htr]; exact hnot)

/-- C3 witness: a fault-free migration of the two-product combined world
does invoke the rename, and the theorem yields the equal-token verification
that licensed it. -/
theorem C3_rename_only_after_token_match_witness :
    ∃ rv, rv ≠ 0 ∧ MigEv.evVerify rv rv ∈
      (migration_main noFaults exCombinedWorld).2.trace :=
  C3_rename_only_after_token_match.1 noFaults exCombinedWorld (by decide)
    (by decide)

end CrayProductCatalog

